import Mathlib

/-!
Verification of the circuit-equivalence repository: a shallow embedding of
the discrete-quadratic-model (DQM) construction from `src/equivalence.py`
and `src/isomorphism.py`, the result-interpretation functions
`find_isomorphism` / `find_equivalence`, and the netlist parser from
`src/circuits.py`, together with proofs of the specification claims.

Graphs follow the networkx invariants: a node list without duplicates and
an edge list in which each undirected edge appears once, with distinct
endpoints that are nodes.  Real-valued biases and energies are modelled as
rationals.  The external hybrid solver is modelled as a function argument
producing an energy-ordered list of samples.
-/

set_option linter.unusedSectionVars false

namespace CircuitEquivalence

/-- A graph in the style of `networkx.Graph`: an insertion-ordered list of
nodes and a list of undirected edges (each stored once, in one
orientation). -/
structure Graph (α : Type) where
  nodes : List α
  edges : List (α × α)
  deriving Repr

/-- Two edge tuples denote the same undirected edge. -/
def sameEdge {α : Type} (e e' : α × α) : Prop :=
  (e.1 = e'.1 ∧ e.2 = e'.2) ∨ (e.1 = e'.2 ∧ e.2 = e'.1)

instance {α : Type} [DecidableEq α] (e e' : α × α) : Decidable (sameEdge e e') := by
  unfold sameEdge; infer_instance

/-- The networkx invariants of a graph object: nodes are distinct, each
edge's endpoints are distinct nodes, and no undirected edge is stored
twice. -/
def Graph.WF {α : Type} (G : Graph α) : Prop :=
  G.nodes.Nodup
  ∧ (∀ e ∈ G.edges, e.1 ∈ G.nodes ∧ e.2 ∈ G.nodes ∧ e.1 ≠ e.2)
  ∧ G.edges.Pairwise (fun e e' => ¬ sameEdge e e')

instance {α : Type} [DecidableEq α] (G : Graph α) : Decidable G.WF := by
  unfold Graph.WF; infer_instance

/-- `(u, v) in G.edges` of networkx: undirected adjacency. -/
def hasEdge {α : Type} [DecidableEq α] (G : Graph α) (u v : α) : Bool :=
  G.edges.any (fun e => decide ((e.1 = u ∧ e.2 = v) ∨ (e.1 = v ∧ e.2 = u)))

/-- Whether the G2 nodes at case indices `i` and `j` form an edge of `G2`
(`(G2_nodes[i], G2_nodes[j]) in G2.edges` in the source). -/
def edgeAtCases {α : Type} [DecidableEq α] [Inhabited α] (G2 : Graph α) (i j : ℕ) : Bool :=
  hasEdge G2 (G2.nodes.getD i default) (G2.nodes.getD j default)

/-- All ordered pairs `(u, v)` with `u` strictly before `v` in the list:
the iteration order of `itertools.combinations(l, 2)` and of the nested
`for ivar,node1 in enumerate(l): for node2 in l[ivar+1:]` loops. -/
def pairsOf {α : Type} : List α → List (α × α)
  | [] => []
  | v :: rest => rest.map (fun w => (v, w)) ++ pairsOf rest

/-- Concatenation of the lists produced for each element, in order: the
write sequence of a loop that emits a few items per iteration. -/
def catMap {γ β : Type} (g : γ → List β) : List γ → List β
  | [] => []
  | c :: l => g c ++ catMap g l

/-- A quadratic-bias key: an interacting pair of (variable, case) slots. -/
abbrev QKey (α : Type) := (α × ℕ) × (α × ℕ)

/-- The slot pair `(p, q)` is the one a `set_quadratic_case` call on key `k`
writes (in either orientation: the bias matrix is symmetric). -/
def qkeyMatch {α : Type} (p q : α × ℕ) (k : QKey α) : Prop :=
  (p = k.1 ∧ q = k.2) ∨ (p = k.2 ∧ q = k.1)

instance {α : Type} [DecidableEq α] (p q : α × ℕ) (k : QKey α) :
    Decidable (qkeyMatch p q k) := by
  unfold qkeyMatch; infer_instance

/-- Two keys denote the same unordered interaction slot. -/
def sameQKey {α : Type} (k k' : QKey α) : Prop := qkeyMatch k.1 k.2 k'

instance {α : Type} [DecidableEq α] (k k' : QKey α) : Decidable (sameQKey k k') := by
  unfold sameQKey; infer_instance

/-- A `dimod.DiscreteQuadraticModel`, with a ghost `writes` field recording
every `set_quadratic_case` key in call order (used to audit which biases
the construction loops touch). -/
structure DQM (α : Type) where
  offset : ℚ
  cases : List (α × ℕ)
  linear : α → ℕ → ℚ
  quadratic : (α × ℕ) → (α × ℕ) → ℚ
  writes : List (QKey α)

/-- A freshly created `dimod.DiscreteQuadraticModel()`: no variables, zero
offset, all biases absent (zero). -/
def DQM.empty {α : Type} : DQM α :=
  { offset := 0, cases := [], linear := fun _ _ => 0, quadratic := fun _ _ => 0,
    writes := [] }

/-- `dqm.add_variable(n, v)`: a discrete variable named `v` with `n` cases. -/
def DQM.addVariable {α : Type} (d : DQM α) (n : ℕ) (v : α) : DQM α :=
  { d with cases := d.cases ++ [(v, n)] }

/-- `dqm.set_linear(v, biases)`: replace the full linear-bias array of
variable `v`. -/
def DQM.setLinear {α : Type} [DecidableEq α] (d : DQM α) (v : α) (bias : ℕ → ℚ) : DQM α :=
  { d with linear := fun u c => if u = v then bias c else d.linear u c }

/-- `dqm.set_quadratic_case(u, cu, v, cv, b)`: overwrite the symmetric
quadratic bias between slots `(u, cu)` and `(v, cv)` with `b`, and record
the key in the ghost write trace. -/
def DQM.setQuadraticCase {α : Type} [DecidableEq α] (d : DQM α)
    (u : α) (cu : ℕ) (v : α) (cv : ℕ) (b : ℚ) : DQM α :=
  { d with
    quadratic := fun p q =>
      if qkeyMatch p q ((u, cu), (v, cv)) then b else d.quadratic p q
    writes := d.writes ++ [((u, cu), (v, cv))] }

/-- `dqm.get_quadratic_case(u, cu, v, cv)` (absent biases read as zero). -/
def DQM.getQuadraticCase {α : Type} (d : DQM α) (u : α) (cu : ℕ) (v : α) (cv : ℕ) : ℚ :=
  d.quadratic (u, cu) (v, cv)

/-- An accumulating variant of `set_quadratic_case` adding `b` to the
stored bias: the additive semantics in which the spec states the penalty
families (§4.1, "add quadratic bias"). -/
def DQM.addQuadraticCase {α : Type} [DecidableEq α] (d : DQM α)
    (u : α) (cu : ℕ) (v : α) (cv : ℕ) (b : ℚ) : DQM α :=
  d.setQuadraticCase u cu v cv (d.quadratic (u, cu) (v, cv) + b)

/-- Sum of `g u v` over all unordered pairs of distinct positions of the
list (each pair once, in list order). -/
def pairSum {α : Type} (g : α → α → ℚ) : List α → ℚ
  | [] => 0
  | v :: rest => (rest.map (g v)).sum + pairSum g rest

/-- The energy dimod assigns to a sample `f`: offset, plus the linear bias
of every variable's chosen case, plus the quadratic bias of every unordered
pair of chosen slots. -/
def DQM.energy {α : Type} (d : DQM α) (f : α → ℕ) : ℚ :=
  d.offset + ((d.cases.map Prod.fst).map (fun v => d.linear v (f v))).sum
    + pairSum (fun u v => d.quadratic (u, f u) (v, f v)) (d.cases.map Prod.fst)

/-- The uniqueness penalty coefficient of `src/equivalence.py`'s
formulation ("multiplied by the penalty coefficient A, currently taken to
be 1"): the linear biases are `-1.0` and the same-case quadratic biases
`2.0`. -/
def A_equivalence : ℚ := 1

/-- The edge-consistency coefficient `B = 2.0` of `src/equivalence.py`. -/
def B_equivalence : ℚ := 2

/-- The uniqueness penalty coefficient `A = 1.0` of `src/isomorphism.py`. -/
def A_isomorphism : ℚ := 1

/-- The edge-consistency coefficient of `src/isomorphism.py`: the literal
bias `1` written by both edge loops. -/
def B_isomorphism : ℚ := 1

/-- The model built by `create_dqm` of `src/equivalence.py` for two graphs
(the caller has already checked the node counts are equal): offset `n`,
one `n`-case variable per G1 node, linear bias `-1.0` everywhere, the
same-target quadratic biases `2.0`, and the two edge-consistency loops
writing `B = 2.0`. -/
def dqmBuild {α : Type} [DecidableEq α] [Inhabited α] (G1 G2 : Graph α) : DQM α :=
  let n := G1.nodes.length
  let d1 := { DQM.empty with offset := (n : ℚ) }
  let d2 := G1.nodes.foldl (fun d node => d.addVariable n node) d1
  let d3 := G1.nodes.foldl
    (fun d node => d.setLinear node (fun c => if c < n then -1 else 0)) d2
  let d4 := (List.range n).foldl (fun d itarget =>
    (pairsOf G1.nodes).foldl
      (fun d' p => d'.setQuadraticCase p.1 itarget p.2 itarget 2) d) d3
  let d5 := G1.edges.foldl (fun d e1 =>
    (pairsOf (List.range n)).foldl (fun d' ij =>
      if edgeAtCases G2 ij.1 ij.2 then d'
      else (d'.setQuadraticCase e1.1 ij.1 e1.2 ij.2 B_equivalence).setQuadraticCase
        e1.1 ij.2 e1.2 ij.1 B_equivalence) d) d4
  let d6 := G2.edges.foldl (fun d e2 =>
    (pairsOf G1.nodes).foldl (fun d' uv =>
      if hasEdge G1 uv.1 uv.2 then d'
      else ((d'.setQuadraticCase uv.1 (G2.nodes.indexOf e2.1) uv.2
          (G2.nodes.indexOf e2.2) B_equivalence).setQuadraticCase uv.1
          (G2.nodes.indexOf e2.2) uv.2 (G2.nodes.indexOf e2.1) B_equivalence)) d) d5
  d6

/-- `create_dqm(G1, G2)` of `src/equivalence.py`: raises `ValueError`
(modelled as `none`) when the node counts differ, before any part of the
model is created; otherwise returns the built model. -/
def create_dqm {α : Type} [DecidableEq α] [Inhabited α] (G1 G2 : Graph α) :
    Option (DQM α) :=
  if G1.nodes.length ≠ G2.nodes.length then none else some (dqmBuild G1 G2)

/-- The model built by `create_dqm` of `src/isomorphism.py` for two graphs
of equal node count: no offset, the two edge loops writing bias `1` first,
then linear biases `-A` and a read-modify-write pass adding `2*A` to every
same-target pair. -/
def dqmBuildIso {α : Type} [DecidableEq α] [Inhabited α] (G1 G2 : Graph α) : DQM α :=
  let n := G1.nodes.length
  let d1 := G1.nodes.foldl (fun d node => d.addVariable n node) DQM.empty
  let d2 := G1.edges.foldl (fun d e1 =>
    (pairsOf (List.range n)).foldl (fun d' ij =>
      if edgeAtCases G2 ij.1 ij.2 then d'
      else (d'.setQuadraticCase e1.1 ij.1 e1.2 ij.2 B_isomorphism).setQuadraticCase
        e1.1 ij.2 e1.2 ij.1 B_isomorphism) d) d1
  let d3 := G2.edges.foldl (fun d e2 =>
    (pairsOf G1.nodes).foldl (fun d' uv =>
      if hasEdge G1 uv.1 uv.2 then d'
      else ((d'.setQuadraticCase uv.1 (G2.nodes.indexOf e2.1) uv.2
          (G2.nodes.indexOf e2.2) B_isomorphism).setQuadraticCase uv.1
          (G2.nodes.indexOf e2.2) uv.2 (G2.nodes.indexOf e2.1) B_isomorphism)) d) d2
  let d4 := G1.nodes.foldl
    (fun d node => d.setLinear node (fun c => if c < n then -A_isomorphism else 0)) d3
  let d5 := (List.range n).foldl (fun d itarget =>
    (pairsOf G1.nodes).foldl (fun d' p =>
      d'.setQuadraticCase p.1 itarget p.2 itarget
        (d'.getQuadraticCase p.1 itarget p.2 itarget + 2 * A_isomorphism)) d) d4
  d5

/-- `create_dqm(G1, G2)` of `src/isomorphism.py`. -/
def create_dqm_iso {α : Type} [DecidableEq α] [Inhabited α] (G1 G2 : Graph α) :
    Option (DQM α) :=
  if G1.nodes.length ≠ G2.nodes.length then none else some (dqmBuildIso G1 G2)

/-- The variant of `dqmBuild` in which every `set_quadratic_case` call
accumulates instead of overwriting: the spec's additive statement of the
two penalty families, kept for comparison with the source's overwrite
semantics. -/
def dqmBuildAdditive {α : Type} [DecidableEq α] [Inhabited α] (G1 G2 : Graph α) : DQM α :=
  let n := G1.nodes.length
  let d1 := { DQM.empty with offset := (n : ℚ) }
  let d2 := G1.nodes.foldl (fun d node => d.addVariable n node) d1
  let d3 := G1.nodes.foldl
    (fun d node => d.setLinear node (fun c => if c < n then -1 else 0)) d2
  let d4 := (List.range n).foldl (fun d itarget =>
    (pairsOf G1.nodes).foldl
      (fun d' p => d'.addQuadraticCase p.1 itarget p.2 itarget 2) d) d3
  let d5 := G1.edges.foldl (fun d e1 =>
    (pairsOf (List.range n)).foldl (fun d' ij =>
      if edgeAtCases G2 ij.1 ij.2 then d'
      else (d'.addQuadraticCase e1.1 ij.1 e1.2 ij.2 B_equivalence).addQuadraticCase
        e1.1 ij.2 e1.2 ij.1 B_equivalence) d) d4
  let d6 := G2.edges.foldl (fun d e2 =>
    (pairsOf G1.nodes).foldl (fun d' uv =>
      if hasEdge G1 uv.1 uv.2 then d'
      else ((d'.addQuadraticCase uv.1 (G2.nodes.indexOf e2.1) uv.2
          (G2.nodes.indexOf e2.2) B_equivalence).addQuadraticCase uv.1
          (G2.nodes.indexOf e2.2) uv.2 (G2.nodes.indexOf e2.1) B_equivalence)) d) d5
  d6

/-- The keys written by the uniqueness loop of `create_dqm`
(`src/equivalence.py`): for each target case and each ordered node pair of
G1, the same-target slot pair. -/
def uniqKeys {α : Type} (G1 : Graph α) (n : ℕ) : List (QKey α) :=
  catMap (fun t => (pairsOf G1.nodes).map (fun p => ((p.1, t), (p.2, t))))
    (List.range n)

/-- The keys written by the first edge-consistency loop: for each G1 edge
and each index pair that is not a G2 edge, both orientations. -/
def b1Keys {α : Type} [DecidableEq α] [Inhabited α] (G1 G2 : Graph α) (n : ℕ) :
    List (QKey α) :=
  catMap (fun e1 => catMap (fun ij =>
      if edgeAtCases G2 ij.1 ij.2 then []
      else [((e1.1, ij.1), (e1.2, ij.2)), ((e1.1, ij.2), (e1.2, ij.1))])
    (pairsOf (List.range n))) G1.edges

/-- The keys written by the second edge-consistency loop: for each G2 edge
(at its node indices) and each G1 node pair that is not a G1 edge, both
orientations. -/
def b2Keys {α : Type} [DecidableEq α] [Inhabited α] (G1 G2 : Graph α) :
    List (QKey α) :=
  catMap (fun e2 => catMap (fun uv =>
      if hasEdge G1 uv.1 uv.2 then []
      else [((uv.1, G2.nodes.indexOf e2.1), (uv.2, G2.nodes.indexOf e2.2)),
            ((uv.1, G2.nodes.indexOf e2.2), (uv.2, G2.nodes.indexOf e2.1))])
    (pairsOf G1.nodes)) G2.edges

/-- Overwrite the biases of a list of keys with the constant `b`, in
order. -/
def writeList {α : Type} [DecidableEq α] (d : DQM α) (ks : List (QKey α)) (b : ℚ) :
    DQM α :=
  ks.foldl (fun d' k => d'.setQuadraticCase k.1.1 k.1.2 k.2.1 k.2.2 b) d

/-- Add `b` to the biases of a list of keys, in order (each write reads the
current bias, as the uniqueness loop of `src/isomorphism.py` does). -/
def addWriteList {α : Type} [DecidableEq α] (d : DQM α) (ks : List (QKey α)) (b : ℚ) :
    DQM α :=
  ks.foldl (fun d' k =>
    d'.setQuadraticCase k.1.1 k.1.2 k.2.1 k.2.2 (d'.quadratic k.1 k.2 + b)) d

/-- An assignment giving every node of `G` a case index below `n` (the
only samples a DQM solver can produce). -/
def ValidAssign {α : Type} (G : Graph α) (n : ℕ) (f : α → ℕ) : Prop :=
  ∀ v ∈ G.nodes, f v < n

instance {α : Type} (G : Graph α) (n : ℕ) (f : α → ℕ) :
    Decidable (ValidAssign G n f) := by
  unfold ValidAssign; infer_instance

/-- The assignment realizes a graph isomorphism: it is injective on G1's
nodes and surjective onto the case indices (a bijection onto G2's nodes),
it maps every G1 edge onto a G2 edge, and every G2 edge between assigned
cases comes from a G1 edge (the bidirectional structural round-trip). -/
def IsIsoAssign {α : Type} [DecidableEq α] [Inhabited α] (G1 G2 : Graph α)
    (f : α → ℕ) : Prop :=
  ValidAssign G1 G1.nodes.length f
  ∧ (∀ u ∈ G1.nodes, ∀ v ∈ G1.nodes, u ≠ v → f u ≠ f v)
  ∧ (∀ i, i < G1.nodes.length → ∃ u ∈ G1.nodes, f u = i)
  ∧ (∀ u ∈ G1.nodes, ∀ v ∈ G1.nodes, u ≠ v →
      hasEdge G1 u v = true → edgeAtCases G2 (f u) (f v) = true)
  ∧ (∀ u ∈ G1.nodes, ∀ v ∈ G1.nodes, u ≠ v →
      edgeAtCases G2 (f u) (f v) = true → hasEdge G1 u v = true)

/-- The two graphs are isomorphic: some assignment of case indices
realizes an isomorphism. -/
def Isomorphic {α : Type} [DecidableEq α] [Inhabited α] (G1 G2 : Graph α) : Prop :=
  ∃ f : α → ℕ, IsIsoAssign G1 G2 f

/-- The energy contribution of one unordered node pair under the
`src/equivalence.py` model: `2` when the two nodes collide on one target
case, `B = 2` when they map a G1 edge to a G2 non-edge or a G1 non-edge to
a G2 edge, `0` otherwise. -/
def eqTerm {α : Type} [DecidableEq α] [Inhabited α] (G1 G2 : Graph α) (f : α → ℕ)
    (u v : α) : ℚ :=
  if f u = f v then 2
  else if hasEdge G1 u v ≠ edgeAtCases G2 (f u) (f v) then B_equivalence else 0

/-- The energy contribution of one unordered node pair under the
`src/isomorphism.py` model: `2A` for a collision, `B = 1` for an
edge-consistency mismatch, `0` otherwise. -/
def isoTerm {α : Type} [DecidableEq α] [Inhabited α] (G1 G2 : Graph α) (f : α → ℕ)
    (u v : α) : ℚ :=
  if f u = f v then 2 * A_isomorphism
  else if hasEdge G1 u v ≠ edgeAtCases G2 (f u) (f v) then B_isomorphism else 0

/-- One solver sample: an assignment of a case to every variable, with its
energy. -/
structure Sample (α : Type) where
  sample : List (α × ℕ)
  energy : ℚ

/-- `numpy.isclose(a, b)` with the default tolerances
`rtol = 1e-05, atol = 1e-08`: `|a - b| <= atol + rtol*|b|`. -/
def npIsClose (a b : ℚ) : Bool :=
  |a - b| ≤ 1 / 100000000 + |b| / 100000

/-- `{k: G2_nodes[i] for k,i in sample.items()}`: translate case indices
back into G2 node identifiers. -/
def toMapping {α : Type} [Inhabited α] (G2nodes : List α) (s : List (α × ℕ)) :
    List (α × α) :=
  s.map (fun ki => (ki.1, G2nodes.getD ki.2 default))

/-- `find_isomorphism(G1, G2)` of `src/equivalence.py`, with the external
`LeapHybridDQMSampler` abstracted as a function from the model to its
energy-ordered sample list.  The best sample is the first; an empty sample
list yields no result. -/
def find_isomorphism {α : Type} [DecidableEq α] [Inhabited α]
    (sampler : DQM α → List (Sample α)) (G1 G2 : Graph α) : Option (List (α × α)) :=
  if G1.nodes.length ≠ G2.nodes.length then none else
  match create_dqm G1 G2 with
  | none => none
  | some dqm =>
    match (sampler dqm).head? with
    | none => none
    | some best =>
      if npIsClose best.energy 0 then some (toMapping G2.nodes best.sample)
      else none

/-- `find_isomorphism(G1, G2)` of `src/isomorphism.py`: the same
interpretation, but the acceptance test is the exact equality
`best.energy == -G1.number_of_nodes()`. -/
def find_isomorphism_iso {α : Type} [DecidableEq α] [Inhabited α]
    (sampler : DQM α → List (Sample α)) (G1 G2 : Graph α) : Option (List (α × α)) :=
  if G1.nodes.length ≠ G2.nodes.length then none else
  match create_dqm_iso G1 G2 with
  | none => none
  | some dqm =>
    match (sampler dqm).head? with
    | none => none
    | some best =>
      if best.energy = -(G1.nodes.length : ℚ) then some (toMapping G2.nodes best.sample)
      else none

/-- `pat` is a prefix of `s` (character lists). -/
def isPrefixChars : List Char → List Char → Bool
  | [], _ => true
  | _ :: _, [] => false
  | a :: pat, b :: s => a = b && isPrefixChars pat s

/-- Python's substring test `pat in s`, on character lists. -/
def containsSub (pat : List Char) : List Char → Bool
  | [] => pat.isEmpty
  | c :: rest => isPrefixChars pat (c :: rest) || containsSub pat rest

/-- The transistor-type check of `find_equivalence`: a mapped pair is
invalid when the source name contains `'nMOS'` but the target does not, or
contains `'pMOS'` but the target does not. -/
def validMapping (mapping : List (String × String)) : Bool :=
  mapping.all (fun p =>
    !((containsSub "nMOS".toList p.1.toList && !containsSub "nMOS".toList p.2.toList)
      || (containsSub "pMOS".toList p.1.toList && !containsSub "pMOS".toList p.2.toList)))

/-- The sample-scanning loop of `find_equivalence`: walk the ordered
samples; at close-to-zero energy, return the first mapping whose
transistor types check out; at any other energy, stop with no result. -/
def scanSamples (G2nodes : List String) : List (Sample String) →
    Option (List (String × String))
  | [] => none
  | s :: rest =>
    if npIsClose s.energy 0 then
      if validMapping (toMapping G2nodes s.sample) then
        some (toMapping G2nodes s.sample)
      else scanSamples G2nodes rest
    else none

/-- A transistor record of a netlist: `name drain gate source`. -/
structure Transistor where
  name : String
  drain : String
  gate : String
  source : String
  deriving Repr, DecidableEq

/-- A circuit: its netlist and the graph built from it. -/
structure Circuit where
  netlist : List Transistor
  G : Graph String

/-- `find_equivalence(C1, C2)` of `src/equivalence.py`, the sampler
abstracted as for `find_isomorphism`. -/
def find_equivalence (sampler : DQM String → List (Sample String))
    (C1 C2 : Circuit) : Option (List (String × String)) :=
  if C1.G.nodes.length ≠ C2.G.nodes.length then none else
  match create_dqm C1.G C2.G with
  | none => none
  | some dqm =>
    match (sampler dqm).head? with
    | none => none
    | some first =>
      if !npIsClose first.energy 0 then none
      else scanSamples C2.G.nodes (sampler dqm)

/-- Helper for `pySplit`: walk the characters, accumulating the current
field (reversed); whitespace ends a field, empty fields are dropped. -/
def pySplitAux : List Char → List Char → List String
  | [], acc => if acc.isEmpty then [] else [String.mk acc.reverse]
  | c :: rest, acc =>
    if c.isWhitespace then
      if acc.isEmpty then pySplitAux rest []
      else String.mk acc.reverse :: pySplitAux rest []
    else pySplitAux rest (c :: acc)

/-- Python's `line.split()`: split on whitespace runs, dropping empty
fields. -/
def pySplit (line : String) : List String :=
  pySplitAux line.toList []

/-- A line the parser treats as a device record: it contains `'nmos'` or
`'pmos'` as a substring. -/
def isDeviceLine (line : String) : Bool :=
  containsSub "nmos".toList line.toList || containsSub "pmos".toList line.toList

/-- `_parse_netlist` of `src/circuits.py`: skip lines without an
`'nmos'`/`'pmos'` substring; on the others, `Transistor(*values[:4])` —
which fails (`TypeError`, modelled as `none`) when a recognized line has
fewer than four whitespace-separated fields. -/
def parse_netlist : List String → Option (List Transistor)
  | [] => some []
  | line :: rest =>
    if !isDeviceLine line then parse_netlist rest
    else match pySplit line with
      | name :: drain :: gate :: source :: _ =>
        (parse_netlist rest).map (fun ts =>
          Transistor.mk name drain gate source :: ts)
      | _ => none

/-- The parse result the spec describes: each recognized line with at
least four fields yields the record of its first four fields, every other
line contributes nothing (stated from the spec's words, for comparison
with `parse_netlist`). -/
def recordsOf (lines : List String) : List Transistor :=
  lines.filterMap (fun line =>
    if isDeviceLine line then
      match pySplit line with
      | name :: drain :: gate :: source :: _ =>
        some (Transistor.mk name drain gate source)
      | _ => none
    else none)

/-- `networkx.Graph.add_edge(u, v)`: insert missing endpoints as nodes (in
order), then the undirected edge unless already present. -/
def addEdge (G : Graph String) (u v : String) : Graph String :=
  let Ga := if u ∈ G.nodes then G else { G with nodes := G.nodes ++ [u] }
  let Gb := if v ∈ Ga.nodes then Ga else { Ga with nodes := Ga.nodes ++ [v] }
  if hasEdge Gb u v then Gb else { Gb with edges := Gb.edges ++ [(u, v)] }

/-- `_create_graph` of `src/circuits.py`: add the three edges
`(name, drain)`, `(name, gate)`, `(name, source)` of every record. -/
def create_graph (netlist : List Transistor) : Graph String :=
  netlist.foldl (fun G t =>
    addEdge (addEdge (addEdge G t.name t.drain) t.name t.gate) t.name t.source)
    { nodes := [], edges := [] }

/-- The per-node category the spec derives from the naming convention: a
node is NMOS when its name contains `'nMOS'`, else PMOS when it contains
`'pMOS'`, else it has no category (stated from the spec's words, for
comparison with the check `find_equivalence` performs). -/
def categoryOf (s : String) : Option Bool :=
  if containsSub "nMOS".toList s.toList then some true
  else if containsSub "pMOS".toList s.toList then some false
  else none

/-- The model state after the variable and linear-bias loops of
`create_dqm` (`src/equivalence.py`), before any quadratic bias is
written. -/
def baseModel {α : Type} [DecidableEq α] (G1 : Graph α) (n : ℕ) : DQM α :=
  G1.nodes.foldl (fun d node => d.setLinear node (fun c => if c < n then -1 else 0))
    (G1.nodes.foldl (fun d node => d.addVariable n node)
      { DQM.empty with offset := (n : ℚ) })

/-- The model state after the variable loop, edge loops and linear loop of
`create_dqm` (`src/isomorphism.py`), before the uniqueness pass. -/
def baseModelIso {α : Type} [DecidableEq α] [Inhabited α] (G1 G2 : Graph α) (n : ℕ) :
    DQM α :=
  G1.nodes.foldl
    (fun d node => d.setLinear node (fun c => if c < n then -A_isomorphism else 0))
    (writeList
      (writeList (G1.nodes.foldl (fun d node => d.addVariable n node) DQM.empty)
        (b1Keys G1 G2 n) B_isomorphism)
      (b2Keys G1 G2) B_isomorphism)

section ListLemmas

variable {α β γ : Type}

lemma mem_catMap {g : γ → List β} {x : β} :
    ∀ {l : List γ}, x ∈ catMap g l ↔ ∃ c ∈ l, x ∈ g c := by
  intro l
  induction l with
  | nil => simp [catMap]
  | cons c l ih => simp [catMap, ih]

lemma catMap_singleton (k : γ → β) :
    ∀ l : List γ, catMap (fun c => [k c]) l = l.map k := by
  intro l
  induction l with
  | nil => rfl
  | cons c l ih => simp [catMap, ih]

lemma pairwise_catMap {R : β → β → Prop} {S : γ → γ → Prop} {g : γ → List β} :
    ∀ {l : List γ},
      (∀ c ∈ l, ∀ c' ∈ l, S c c' → ∀ k ∈ g c, ∀ k' ∈ g c', R k k') →
      l.Pairwise S → (∀ c ∈ l, (g c).Pairwise R) →
      (catMap g l).Pairwise R := by
  intro l
  induction l with
  | nil => intro _ _ _; exact List.Pairwise.nil
  | cons c l ih =>
    intro hg hS hw
    rw [catMap, List.pairwise_append]
    refine ⟨hw c (by simp),
      ih (fun a ha b hb => hg a (by simp [ha]) b (by simp [hb]))
        (List.pairwise_cons.mp hS).2 (fun c' hc' => hw c' (by simp [hc'])), ?_⟩
    intro a ha b hb
    obtain ⟨c', hc', hb'⟩ := mem_catMap.mp hb
    exact hg c (by simp) c' (by simp [hc'])
      (List.rel_of_pairwise_cons hS hc') a ha b hb'

lemma pairsOf_mem_fst {u v : α} : ∀ {l : List α}, (u, v) ∈ pairsOf l → u ∈ l ∧ v ∈ l := by
  intro l
  induction l with
  | nil => simp [pairsOf]
  | cons a l ih =>
    intro h
    rw [pairsOf, List.mem_append] at h
    rcases h with h | h
    · obtain ⟨w, hw, hwe⟩ := List.mem_map.mp h
      obtain ⟨h1, h2⟩ := Prod.mk.injEq .. ▸ hwe
      subst h1; subst h2
      exact ⟨by simp, by simp [hw]⟩
    · obtain ⟨h1, h2⟩ := ih h
      exact ⟨by simp [h1], by simp [h2]⟩

lemma pairsOf_rel {R : α → α → Prop} {u v : α} :
    ∀ {l : List α}, (u, v) ∈ pairsOf l → l.Pairwise R → R u v := by
  intro l
  induction l with
  | nil => simp [pairsOf]
  | cons a l ih =>
    intro h hp
    rw [pairsOf, List.mem_append] at h
    rcases h with h | h
    · obtain ⟨w, hw, hwe⟩ := List.mem_map.mp h
      obtain ⟨h1, h2⟩ := Prod.mk.injEq .. ▸ hwe
      subst h1; subst h2
      exact List.rel_of_pairwise_cons hp hw
    · exact ih h (List.pairwise_cons.mp hp).2

lemma pairsOf_ne [DecidableEq α] {u v : α} {l : List α} (h : (u, v) ∈ pairsOf l)
    (hl : l.Nodup) : u ≠ v :=
  pairsOf_rel h hl

lemma pairsOf_complete {u v : α} :
    ∀ {l : List α}, u ∈ l → v ∈ l → u ≠ v →
      (u, v) ∈ pairsOf l ∨ (v, u) ∈ pairsOf l := by
  intro l
  induction l with
  | nil => simp
  | cons a l ih =>
    intro hu hv huv
    rcases List.mem_cons.mp hu with rfl | hu'
    · have hv' : v ∈ l := by
        rcases List.mem_cons.mp hv with h | h
        · exact absurd h.symm huv
        · exact h
      exact Or.inl (by rw [pairsOf, List.mem_append]; left; exact List.mem_map.mpr ⟨v, hv', rfl⟩)
    · rcases List.mem_cons.mp hv with rfl | hv'
      · exact Or.inr (by rw [pairsOf, List.mem_append]; left; exact List.mem_map.mpr ⟨u, hu', rfl⟩)
      · rcases ih hu' hv' huv with h | h
        · exact Or.inl (by rw [pairsOf, List.mem_append]; right; exact h)
        · exact Or.inr (by rw [pairsOf, List.mem_append]; right; exact h)

lemma pairsOf_pairwise_ne {l : List α} (hl : l.Nodup) :
    (pairsOf l).Pairwise (fun p p' => ¬ sameEdge p p') := by
  induction l with
  | nil => exact List.Pairwise.nil
  | cons a l ih =>
    rw [pairsOf, List.pairwise_append]
    have hal : a ∉ l := (List.nodup_cons.mp hl).1
    have hln : l.Nodup := (List.nodup_cons.mp hl).2
    refine ⟨?_, ih hln, ?_⟩
    · rw [List.pairwise_map]
      refine List.Pairwise.imp_of_mem ?_ hln
      intro x y hx hy hxy hsame
      rcases hsame with ⟨_, h2⟩ | ⟨h1, _⟩
      · exact hxy h2
      · have hay : a = y := h1
        exact hal (hay.symm ▸ hy)
    · intro p hp q hq hsame
      obtain ⟨w, hw, hwe⟩ := List.mem_map.mp hp
      subst hwe
      obtain ⟨h1, h2⟩ := pairsOf_mem_fst hq
      rcases hsame with ⟨ha, _⟩ | ⟨ha, _⟩
      · have haq : a = q.1 := ha
        exact hal (haq.symm ▸ h1)
      · have haq : a = q.2 := ha
        exact hal (haq.symm ▸ h2)

lemma pairSum_eq_pairsOf (g : α → α → ℚ) :
    ∀ l : List α, pairSum g l = ((pairsOf l).map (fun p => g p.1 p.2)).sum := by
  intro l
  induction l with
  | nil => rfl
  | cons a l ih => simp [pairSum, pairsOf, ih, List.map_map, Function.comp_def]

lemma sum_map_neg_one : ∀ l : List α, (l.map (fun _ => (-1 : ℚ))).sum = -(l.length : ℚ) := by
  intro l
  induction l with
  | nil => simp
  | cons a l ih =>
    simp only [List.map_cons, List.sum_cons, ih, List.length_cons]
    push_cast
    ring

lemma list_sum_nonneg {l : List ℚ} (h : ∀ x ∈ l, 0 ≤ x) : 0 ≤ l.sum := by
  induction l with
  | nil => simp
  | cons a l ih =>
    simp only [List.sum_cons]
    have := h a (by simp)
    have := ih (fun x hx => h x (by simp [hx]))
    linarith

lemma list_sum_eq_zero_iff {l : List ℚ} (h : ∀ x ∈ l, 0 ≤ x) :
    l.sum = 0 ↔ ∀ x ∈ l, x = 0 := by
  induction l with
  | nil => simp
  | cons a l ih =>
    have ha := h a (by simp)
    have hl : ∀ x ∈ l, 0 ≤ x := fun x hx => h x (by simp [hx])
    have hs := list_sum_nonneg hl
    simp only [List.sum_cons, List.mem_cons]
    constructor
    · intro h0
      have ha0 : a = 0 := by linarith [list_sum_nonneg hl]
      have hl0 : l.sum = 0 := by linarith
      intro x hx
      rcases hx with rfl | hx
      · exact ha0
      · exact (ih hl).mp hl0 x hx
    · intro hall
      have h1 : l.sum = 0 := (ih hl).mpr (fun x hx => hall x (Or.inr hx))
      have h2 : a = 0 := hall a (Or.inl rfl)
      rw [h1, h2, add_zero]

end ListLemmas

section DQMLemmas

variable {α : Type} [DecidableEq α]

@[simp] lemma setQuadraticCase_quadratic (d : DQM α) (u : α) (cu : ℕ) (v : α) (cv : ℕ)
    (b : ℚ) (p q : α × ℕ) :
    (d.setQuadraticCase u cu v cv b).quadratic p q =
      if qkeyMatch p q ((u, cu), (v, cv)) then b else d.quadratic p q := rfl

@[simp] lemma setQuadraticCase_offset (d : DQM α) (u : α) (cu : ℕ) (v : α) (cv : ℕ)
    (b : ℚ) : (d.setQuadraticCase u cu v cv b).offset = d.offset := rfl

@[simp] lemma setQuadraticCase_cases (d : DQM α) (u : α) (cu : ℕ) (v : α) (cv : ℕ)
    (b : ℚ) : (d.setQuadraticCase u cu v cv b).cases = d.cases := rfl

@[simp] lemma setQuadraticCase_linear (d : DQM α) (u : α) (cu : ℕ) (v : α) (cv : ℕ)
    (b : ℚ) : (d.setQuadraticCase u cu v cv b).linear = d.linear := rfl

@[simp] lemma setQuadraticCase_writes (d : DQM α) (u : α) (cu : ℕ) (v : α) (cv : ℕ)
    (b : ℚ) :
    (d.setQuadraticCase u cu v cv b).writes = d.writes ++ [((u, cu), (v, cv))] := rfl

@[simp] lemma setLinear_quadratic (d : DQM α) (v : α) (bias : ℕ → ℚ) :
    (d.setLinear v bias).quadratic = d.quadratic := rfl

@[simp] lemma setLinear_offset (d : DQM α) (v : α) (bias : ℕ → ℚ) :
    (d.setLinear v bias).offset = d.offset := rfl

@[simp] lemma setLinear_cases (d : DQM α) (v : α) (bias : ℕ → ℚ) :
    (d.setLinear v bias).cases = d.cases := rfl

@[simp] lemma setLinear_writes (d : DQM α) (v : α) (bias : ℕ → ℚ) :
    (d.setLinear v bias).writes = d.writes := rfl

@[simp] lemma addVariable_quadratic (d : DQM α) (n : ℕ) (v : α) :
    (d.addVariable n v).quadratic = d.quadratic := rfl

@[simp] lemma addVariable_offset (d : DQM α) (n : ℕ) (v : α) :
    (d.addVariable n v).offset = d.offset := rfl

@[simp] lemma addVariable_linear (d : DQM α) (n : ℕ) (v : α) :
    (d.addVariable n v).linear = d.linear := rfl

@[simp] lemma addVariable_cases (d : DQM α) (n : ℕ) (v : α) :
    (d.addVariable n v).cases = d.cases ++ [(v, n)] := rfl

lemma qkeyMatch_symm {p q : α × ℕ} {k : QKey α} : qkeyMatch p q k ↔ qkeyMatch q p k := by
  unfold qkeyMatch; tauto

lemma qkeyMatch_same {p q : α × ℕ} {k k' : QKey α} (h : qkeyMatch p q k)
    (h' : qkeyMatch p q k') : sameQKey k k' := by
  unfold sameQKey qkeyMatch at *
  rcases h with ⟨h1, h2⟩ | ⟨h1, h2⟩ <;> rcases h' with ⟨h3, h4⟩ | ⟨h3, h4⟩
  · exact Or.inl ⟨h1.symm.trans h3, h2.symm.trans h4⟩
  · exact Or.inr ⟨h1.symm.trans h3, h2.symm.trans h4⟩
  · exact Or.inr ⟨h2.symm.trans h4, h1.symm.trans h3⟩
  · exact Or.inl ⟨h2.symm.trans h4, h1.symm.trans h3⟩

lemma writeList_cons (d : DQM α) (k : QKey α) (ks : List (QKey α)) (b : ℚ) :
    writeList d (k :: ks) b =
      writeList (d.setQuadraticCase k.1.1 k.1.2 k.2.1 k.2.2 b) ks b := rfl

lemma writeList_append (d : DQM α) (ks ks' : List (QKey α)) (b : ℚ) :
    writeList d (ks ++ ks') b = writeList (writeList d ks b) ks' b :=
  List.foldl_append _ _ _ _

lemma writeList_offset (b : ℚ) :
    ∀ (ks : List (QKey α)) (d : DQM α), (writeList d ks b).offset = d.offset := by
  intro ks
  induction ks with
  | nil => intro d; rfl
  | cons k ks ih => intro d; rw [writeList_cons, ih]; rfl

lemma writeList_cases (b : ℚ) :
    ∀ (ks : List (QKey α)) (d : DQM α), (writeList d ks b).cases = d.cases := by
  intro ks
  induction ks with
  | nil => intro d; rfl
  | cons k ks ih => intro d; rw [writeList_cons, ih]; rfl

lemma writeList_linear (b : ℚ) :
    ∀ (ks : List (QKey α)) (d : DQM α), (writeList d ks b).linear = d.linear := by
  intro ks
  induction ks with
  | nil => intro d; rfl
  | cons k ks ih => intro d; rw [writeList_cons, ih]; rfl

lemma writeList_writes (b : ℚ) :
    ∀ (ks : List (QKey α)) (d : DQM α), (writeList d ks b).writes = d.writes ++ ks := by
  intro ks
  induction ks with
  | nil => intro d; rw [List.append_nil]; rfl
  | cons k ks ih => intro d; rw [writeList_cons, ih]; simp

lemma writeList_quadratic (b : ℚ) (p q : α × ℕ) :
    ∀ (ks : List (QKey α)) (d : DQM α), (writeList d ks b).quadratic p q =
      if ∃ k ∈ ks, qkeyMatch p q k then b else d.quadratic p q := by
  intro ks
  induction ks with
  | nil => intro d; simp [writeList]
  | cons k ks ih =>
    intro d
    rw [writeList_cons, ih]
    by_cases h1 : ∃ k' ∈ ks, qkeyMatch p q k'
    · have hcons : ∃ k' ∈ k :: ks, qkeyMatch p q k' := by
        obtain ⟨k', hk', hm⟩ := h1; exact ⟨k', by simp [hk'], hm⟩
      rw [if_pos h1, if_pos hcons]
    · by_cases h2 : qkeyMatch p q k
      · have hcons : ∃ k' ∈ k :: ks, qkeyMatch p q k' := ⟨k, by simp, h2⟩
        rw [if_neg h1, if_pos hcons, setQuadraticCase_quadratic, if_pos h2]
      · have hcons : ¬ ∃ k' ∈ k :: ks, qkeyMatch p q k' := by
          rintro ⟨k', hk', hm⟩
          rcases List.mem_cons.mp hk' with rfl | hk''
          · exact h2 hm
          · exact h1 ⟨k', hk'', hm⟩
        rw [if_neg h1, if_neg hcons, setQuadraticCase_quadratic, if_neg h2]

lemma writeList_quad_congr {d d' : DQM α} (b : ℚ) (ks : List (QKey α))
    (h : ∀ p q, d.quadratic p q = d'.quadratic p q) :
    ∀ p q, (writeList d ks b).quadratic p q = (writeList d' ks b).quadratic p q := by
  intro p q
  rw [writeList_quadratic, writeList_quadratic, h]

lemma setQuadraticCase_symm {d : DQM α} (u : α) (cu : ℕ) (v : α) (cv : ℕ) (b : ℚ)
    (h : ∀ r s, d.quadratic r s = d.quadratic s r) :
    ∀ r s, (d.setQuadraticCase u cu v cv b).quadratic r s =
      (d.setQuadraticCase u cu v cv b).quadratic s r := by
  intro r s
  simp only [setQuadraticCase_quadratic]
  by_cases hm : qkeyMatch r s ((u, cu), (v, cv))
  · simp [hm, qkeyMatch_symm.mp hm]
  · have : ¬ qkeyMatch s r ((u, cu), (v, cv)) := fun hc => hm (qkeyMatch_symm.mp hc)
    simp [hm, this, h r s]

lemma writeList_symm (b : ℚ) :
    ∀ (ks : List (QKey α)) (d : DQM α), (∀ r s, d.quadratic r s = d.quadratic s r) →
      ∀ r s, (writeList d ks b).quadratic r s = (writeList d ks b).quadratic s r := by
  intro ks
  induction ks with
  | nil => intro d h; exact h
  | cons k ks ih =>
    intro d h
    rw [writeList_cons]
    exact ih _ (setQuadraticCase_symm _ _ _ _ _ h)

lemma addWriteList_cons (d : DQM α) (k : QKey α) (ks : List (QKey α)) (b : ℚ) :
    addWriteList d (k :: ks) b =
      addWriteList (d.setQuadraticCase k.1.1 k.1.2 k.2.1 k.2.2 (d.quadratic k.1 k.2 + b))
        ks b := rfl

lemma addWriteList_append (d : DQM α) (ks ks' : List (QKey α)) (b : ℚ) :
    addWriteList d (ks ++ ks') b = addWriteList (addWriteList d ks b) ks' b :=
  List.foldl_append _ _ _ _

lemma addWriteList_offset (b : ℚ) :
    ∀ (ks : List (QKey α)) (d : DQM α), (addWriteList d ks b).offset = d.offset := by
  intro ks
  induction ks with
  | nil => intro d; rfl
  | cons k ks ih => intro d; rw [addWriteList_cons, ih]; rfl

lemma addWriteList_cases (b : ℚ) :
    ∀ (ks : List (QKey α)) (d : DQM α), (addWriteList d ks b).cases = d.cases := by
  intro ks
  induction ks with
  | nil => intro d; rfl
  | cons k ks ih => intro d; rw [addWriteList_cons, ih]; rfl

lemma addWriteList_linear (b : ℚ) :
    ∀ (ks : List (QKey α)) (d : DQM α), (addWriteList d ks b).linear = d.linear := by
  intro ks
  induction ks with
  | nil => intro d; rfl
  | cons k ks ih => intro d; rw [addWriteList_cons, ih]; rfl

lemma addWriteList_quadratic (b : ℚ) (p q : α × ℕ) :
    ∀ (ks : List (QKey α)) (d : DQM α), (∀ r s, d.quadratic r s = d.quadratic s r) →
      ks.Pairwise (fun k k' => ¬ sameQKey k k') →
      (addWriteList d ks b).quadratic p q =
        d.quadratic p q + (if ∃ k ∈ ks, qkeyMatch p q k then b else 0) := by
  intro ks
  induction ks with
  | nil => intro d _ _; simp [addWriteList]
  | cons k ks ih =>
    intro d hsym hpw
    rw [addWriteList_cons]
    have hstep := ih (d.setQuadraticCase k.1.1 k.1.2 k.2.1 k.2.2
        (d.quadratic k.1 k.2 + b))
      (setQuadraticCase_symm k.1.1 k.1.2 k.2.1 k.2.2 (d.quadratic k.1 k.2 + b) hsym)
      (List.pairwise_cons.mp hpw).2
    rw [hstep]
    by_cases h2 : qkeyMatch p q k
    · have hnone : ¬ ∃ k' ∈ ks, qkeyMatch p q k' := by
        rintro ⟨k', hk', hm⟩
        exact (List.rel_of_pairwise_cons hpw hk') (qkeyMatch_same h2 hm)
      have hval : (d.setQuadraticCase k.1.1 k.1.2 k.2.1 k.2.2
          (d.quadratic k.1 k.2 + b)).quadratic p q = d.quadratic p q + b := by
        simp only [setQuadraticCase_quadratic]
        rw [if_pos (by simpa using h2)]
        rcases h2 with ⟨h3, h4⟩ | ⟨h3, h4⟩
        · rw [show k.1 = p from h3.symm, show k.2 = q from h4.symm]
        · rw [show k.1 = q from h4.symm, show k.2 = p from h3.symm, hsym q p]
      have hcons : ∃ k' ∈ k :: ks, qkeyMatch p q k' := ⟨k, by simp, h2⟩
      rw [hval, if_neg hnone, if_pos hcons, add_zero]
    · have hval : (d.setQuadraticCase k.1.1 k.1.2 k.2.1 k.2.2
          (d.quadratic k.1 k.2 + b)).quadratic p q = d.quadratic p q := by
        simp only [setQuadraticCase_quadratic]
        rw [if_neg (by simpa using h2)]
      rw [hval]
      by_cases h1 : ∃ k' ∈ ks, qkeyMatch p q k'
      · have hcons : ∃ k' ∈ k :: ks, qkeyMatch p q k' := by
          obtain ⟨k', hk', hm⟩ := h1; exact ⟨k', by simp [hk'], hm⟩
        rw [if_pos h1, if_pos hcons]
      · have hcons : ¬ ∃ k' ∈ k :: ks, qkeyMatch p q k' := by
          rintro ⟨k', hk', hm⟩
          rcases List.mem_cons.mp hk' with rfl | hk''
          · exact h2 hm
          · exact h1 ⟨k', hk'', hm⟩
        rw [if_neg h1, if_neg hcons]

lemma addWriteList_quad_congr (b : ℚ) :
    ∀ (ks : List (QKey α)) {d d' : DQM α},
      (∀ p q, d.quadratic p q = d'.quadratic p q) →
      ∀ p q, (addWriteList d ks b).quadratic p q =
        (addWriteList d' ks b).quadratic p q := by
  intro ks
  induction ks with
  | nil => intro d d' h p q; exact h p q
  | cons k ks ih =>
    intro d d' h p q
    rw [addWriteList_cons, addWriteList_cons]
    refine ih ?_ p q
    intro r s
    simp only [setQuadraticCase_quadratic, h k.1 k.2, h r s]

lemma addWriteList_eq_writeList (b : ℚ) (ks : List (QKey α)) (d : DQM α)
    (hsym : ∀ r s, d.quadratic r s = d.quadratic s r)
    (hpw : ks.Pairwise (fun k k' => ¬ sameQKey k k'))
    (hzero : ∀ k ∈ ks, d.quadratic k.1 k.2 = 0) :
    ∀ p q, (addWriteList d ks b).quadratic p q = (writeList d ks b).quadratic p q := by
  intro p q
  rw [addWriteList_quadratic b p q ks d hsym hpw, writeList_quadratic]
  by_cases h : ∃ k ∈ ks, qkeyMatch p q k
  · obtain ⟨k, hk, hm⟩ := h
    have hdq : d.quadratic p q = 0 := by
      rcases hm with ⟨h3, h4⟩ | ⟨h3, h4⟩
      · rw [h3, h4]; exact hzero k hk
      · rw [h3, h4, hsym]; exact hzero k hk
    have hex : ∃ k ∈ ks, qkeyMatch p q k := ⟨k, hk, hm⟩
    simp [hex, hdq]
  · simp [h]

lemma foldl_writeList {γ : Type} (g : γ → List (QKey α)) (b : ℚ)
    (body : DQM α → γ → DQM α) (hb : ∀ d c, body d c = writeList d (g c) b) :
    ∀ (l : List γ) (d : DQM α), l.foldl body d = writeList d (catMap g l) b := by
  intro l
  induction l with
  | nil => intro d; rfl
  | cons c l ih =>
    intro d
    rw [List.foldl_cons, ih, hb, catMap, writeList_append]

lemma foldl_addWriteList {γ : Type} (g : γ → List (QKey α)) (b : ℚ)
    (body : DQM α → γ → DQM α) (hb : ∀ d c, body d c = addWriteList d (g c) b) :
    ∀ (l : List γ) (d : DQM α), l.foldl body d = addWriteList d (catMap g l) b := by
  intro l
  induction l with
  | nil => intro d; rfl
  | cons c l ih =>
    intro d
    rw [List.foldl_cons, ih, hb, catMap, addWriteList_append]

end DQMLemmas

section BuildStages

variable {α : Type} [DecidableEq α] [Inhabited α]

lemma foldl_addVariable_cases (n : ℕ) :
    ∀ (l : List α) (d : DQM α),
      (l.foldl (fun d node => d.addVariable n node) d).cases =
        d.cases ++ l.map (fun v => (v, n)) := by
  intro l
  induction l with
  | nil => intro d; simp
  | cons a l ih => intro d; rw [List.foldl_cons, ih]; simp [DQM.addVariable]

lemma foldl_addVariable_offset (n : ℕ) :
    ∀ (l : List α) (d : DQM α),
      (l.foldl (fun d node => d.addVariable n node) d).offset = d.offset := by
  intro l
  induction l with
  | nil => intro d; rfl
  | cons a l ih => intro d; rw [List.foldl_cons, ih]; rfl

lemma foldl_addVariable_linear (n : ℕ) :
    ∀ (l : List α) (d : DQM α),
      (l.foldl (fun d node => d.addVariable n node) d).linear = d.linear := by
  intro l
  induction l with
  | nil => intro d; rfl
  | cons a l ih => intro d; rw [List.foldl_cons, ih]; rfl

lemma foldl_addVariable_quadratic (n : ℕ) :
    ∀ (l : List α) (d : DQM α),
      (l.foldl (fun d node => d.addVariable n node) d).quadratic = d.quadratic := by
  intro l
  induction l with
  | nil => intro d; rfl
  | cons a l ih => intro d; rw [List.foldl_cons, ih]; rfl

lemma foldl_addVariable_writes (n : ℕ) :
    ∀ (l : List α) (d : DQM α),
      (l.foldl (fun d node => d.addVariable n node) d).writes = d.writes := by
  intro l
  induction l with
  | nil => intro d; rfl
  | cons a l ih => intro d; rw [List.foldl_cons, ih]; rfl

lemma foldl_setLinear_linear (bias : ℕ → ℚ) :
    ∀ (l : List α) (d : DQM α) (u : α) (c : ℕ),
      (l.foldl (fun d node => d.setLinear node bias) d).linear u c =
        if u ∈ l then bias c else d.linear u c := by
  intro l
  induction l with
  | nil => intro d u c; simp
  | cons a l ih =>
    intro d u c
    rw [List.foldl_cons, ih]
    by_cases hl : u ∈ l
    · simp [hl]
    · by_cases ha : u = a
      · simp [hl, ha, DQM.setLinear]
      · simp [hl, ha, DQM.setLinear]

lemma foldl_setLinear_offset (bias : ℕ → ℚ) :
    ∀ (l : List α) (d : DQM α),
      (l.foldl (fun d node => d.setLinear node bias) d).offset = d.offset := by
  intro l
  induction l with
  | nil => intro d; rfl
  | cons a l ih => intro d; rw [List.foldl_cons, ih]; rfl

lemma foldl_setLinear_cases (bias : ℕ → ℚ) :
    ∀ (l : List α) (d : DQM α),
      (l.foldl (fun d node => d.setLinear node bias) d).cases = d.cases := by
  intro l
  induction l with
  | nil => intro d; rfl
  | cons a l ih => intro d; rw [List.foldl_cons, ih]; rfl

lemma foldl_setLinear_quadratic (bias : ℕ → ℚ) :
    ∀ (l : List α) (d : DQM α),
      (l.foldl (fun d node => d.setLinear node bias) d).quadratic = d.quadratic := by
  intro l
  induction l with
  | nil => intro d; rfl
  | cons a l ih => intro d; rw [List.foldl_cons, ih]; rfl

lemma foldl_setLinear_writes (bias : ℕ → ℚ) :
    ∀ (l : List α) (d : DQM α),
      (l.foldl (fun d node => d.setLinear node bias) d).writes = d.writes := by
  intro l
  induction l with
  | nil => intro d; rfl
  | cons a l ih => intro d; rw [List.foldl_cons, ih]; rfl

lemma baseModel_offset (G1 : Graph α) (n : ℕ) :
    (baseModel G1 n).offset = (n : ℚ) := by
  rw [baseModel, foldl_setLinear_offset, foldl_addVariable_offset]

lemma baseModel_cases (G1 : Graph α) (n : ℕ) :
    (baseModel G1 n).cases = G1.nodes.map (fun v => (v, n)) := by
  rw [baseModel, foldl_setLinear_cases, foldl_addVariable_cases]
  rfl

lemma baseModel_linear (G1 : Graph α) (n : ℕ) (u : α) (c : ℕ) :
    (baseModel G1 n).linear u c =
      if u ∈ G1.nodes then (if c < n then -1 else 0) else 0 := by
  rw [baseModel, foldl_setLinear_linear, foldl_addVariable_linear]
  rfl

lemma baseModel_quadratic (G1 : Graph α) (n : ℕ) :
    (baseModel G1 n).quadratic = fun _ _ => 0 := by
  rw [baseModel, foldl_setLinear_quadratic, foldl_addVariable_quadratic]
  rfl

lemma baseModel_writes (G1 : Graph α) (n : ℕ) : (baseModel G1 n).writes = [] := by
  rw [baseModel, foldl_setLinear_writes, foldl_addVariable_writes]
  rfl

lemma uniq_fold_eq (G1 : Graph α) (n : ℕ) :
    ∀ d : DQM α,
      (List.range n).foldl (fun d itarget =>
        (pairsOf G1.nodes).foldl
          (fun d' p => d'.setQuadraticCase p.1 itarget p.2 itarget 2) d) d
      = writeList d (uniqKeys G1 n) 2 := by
  intro d
  rw [uniqKeys]
  refine foldl_writeList _ 2 _ ?_ (List.range n) d
  intro d t
  rw [writeList, List.foldl_map]

lemma uniq_fold_add_eq (G1 : Graph α) (n : ℕ) :
    ∀ d : DQM α,
      (List.range n).foldl (fun d itarget =>
        (pairsOf G1.nodes).foldl
          (fun d' p => d'.addQuadraticCase p.1 itarget p.2 itarget 2) d) d
      = addWriteList d (uniqKeys G1 n) 2 := by
  intro d
  rw [uniqKeys]
  refine foldl_addWriteList _ 2 _ ?_ (List.range n) d
  intro d t
  rw [addWriteList, List.foldl_map]
  rfl

lemma uniq_fold_iso_eq (G1 : Graph α) (n : ℕ) :
    ∀ d : DQM α,
      (List.range n).foldl (fun d itarget =>
        (pairsOf G1.nodes).foldl (fun d' p =>
          d'.setQuadraticCase p.1 itarget p.2 itarget
            (d'.getQuadraticCase p.1 itarget p.2 itarget + 2 * A_isomorphism)) d) d
      = addWriteList d (uniqKeys G1 n) (2 * A_isomorphism) := by
  intro d
  rw [uniqKeys]
  refine foldl_addWriteList _ (2 * A_isomorphism) _ ?_ (List.range n) d
  intro d t
  rw [addWriteList, List.foldl_map]
  rfl

lemma b1_fold_eq (G1 G2 : Graph α) (n : ℕ) (B : ℚ) :
    ∀ d : DQM α,
      G1.edges.foldl (fun d e1 =>
        (pairsOf (List.range n)).foldl (fun d' ij =>
          if edgeAtCases G2 ij.1 ij.2 then d'
          else (d'.setQuadraticCase e1.1 ij.1 e1.2 ij.2 B).setQuadraticCase
            e1.1 ij.2 e1.2 ij.1 B) d) d
      = writeList d (catMap (fun e1 => catMap (fun ij =>
          if edgeAtCases G2 ij.1 ij.2 then []
          else [((e1.1, ij.1), (e1.2, ij.2)), ((e1.1, ij.2), (e1.2, ij.1))])
        (pairsOf (List.range n))) G1.edges) B := by
  intro d
  refine foldl_writeList _ B _ ?_ G1.edges d
  intro d e1
  refine foldl_writeList _ B _ ?_ (pairsOf (List.range n)) d
  intro d ij
  by_cases h : edgeAtCases G2 ij.1 ij.2
  · simp only [h, if_true]
    rfl
  · simp only [h, if_false, Bool.false_eq_true]
    rfl

lemma b2_fold_eq (G1 G2 : Graph α) (B : ℚ) :
    ∀ d : DQM α,
      G2.edges.foldl (fun d e2 =>
        (pairsOf G1.nodes).foldl (fun d' uv =>
          if hasEdge G1 uv.1 uv.2 then d'
          else ((d'.setQuadraticCase uv.1 (G2.nodes.indexOf e2.1) uv.2
              (G2.nodes.indexOf e2.2) B).setQuadraticCase uv.1
              (G2.nodes.indexOf e2.2) uv.2 (G2.nodes.indexOf e2.1) B)) d) d
      = writeList d (b2Keys G1 G2) B := by
  intro d
  rw [b2Keys]
  refine foldl_writeList _ B _ ?_ G2.edges d
  intro d e2
  refine foldl_writeList _ B _ ?_ (pairsOf G1.nodes) d
  intro d uv
  by_cases h : hasEdge G1 uv.1 uv.2
  · simp only [h, if_true]
    rfl
  · simp only [h, if_false, Bool.false_eq_true]
    rfl

lemma dqmBuild_stages (G1 G2 : Graph α) :
    dqmBuild G1 G2 =
      writeList (writeList (writeList (baseModel G1 G1.nodes.length)
          (uniqKeys G1 G1.nodes.length) 2)
        (b1Keys G1 G2 G1.nodes.length) B_equivalence)
      (b2Keys G1 G2) B_equivalence := by
  simp only [dqmBuild, baseModel, b1Keys]
  rw [uniq_fold_eq, b1_fold_eq, b2_fold_eq]

lemma dqmBuildAdditive_stages (G1 G2 : Graph α) :
    dqmBuildAdditive G1 G2 =
      addWriteList (addWriteList (addWriteList (baseModel G1 G1.nodes.length)
          (uniqKeys G1 G1.nodes.length) 2)
        (b1Keys G1 G2 G1.nodes.length) B_equivalence)
      (b2Keys G1 G2) B_equivalence := by
  simp only [dqmBuildAdditive, baseModel, b1Keys]
  rw [uniq_fold_add_eq]
  rw [show ∀ d : DQM α, G1.edges.foldl (fun d e1 =>
      (pairsOf (List.range G1.nodes.length)).foldl (fun d' ij =>
        if edgeAtCases G2 ij.1 ij.2 then d'
        else (d'.addQuadraticCase e1.1 ij.1 e1.2 ij.2 B_equivalence).addQuadraticCase
          e1.1 ij.2 e1.2 ij.1 B_equivalence) d) d
      = addWriteList d (catMap (fun e1 => catMap (fun ij =>
          if edgeAtCases G2 ij.1 ij.2 then []
          else [((e1.1, ij.1), (e1.2, ij.2)), ((e1.1, ij.2), (e1.2, ij.1))])
        (pairsOf (List.range G1.nodes.length))) G1.edges) B_equivalence
    from ?_, show ∀ d : DQM α, G2.edges.foldl (fun d e2 =>
      (pairsOf G1.nodes).foldl (fun d' uv =>
        if hasEdge G1 uv.1 uv.2 then d'
        else ((d'.addQuadraticCase uv.1 (G2.nodes.indexOf e2.1) uv.2
            (G2.nodes.indexOf e2.2) B_equivalence).addQuadraticCase uv.1
            (G2.nodes.indexOf e2.2) uv.2 (G2.nodes.indexOf e2.1) B_equivalence)) d) d
      = addWriteList d (b2Keys G1 G2) B_equivalence from ?_]
  · intro d
    rw [b2Keys]
    refine foldl_addWriteList _ B_equivalence _ ?_ G2.edges d
    intro d e2
    refine foldl_addWriteList _ B_equivalence _ ?_ (pairsOf G1.nodes) d
    intro d uv
    by_cases h : hasEdge G1 uv.1 uv.2
    · simp only [h, if_true]
      rfl
    · simp only [h, if_false, Bool.false_eq_true]
      rfl
  · intro d
    refine foldl_addWriteList _ B_equivalence _ ?_ G1.edges d
    intro d e1
    refine foldl_addWriteList _ B_equivalence _ ?_ (pairsOf (List.range G1.nodes.length)) d
    intro d ij
    by_cases h : edgeAtCases G2 ij.1 ij.2
    · simp only [h, if_true]
      rfl
    · simp only [h, if_false, Bool.false_eq_true]
      rfl

lemma dqmBuildIso_stages (G1 G2 : Graph α) :
    dqmBuildIso G1 G2 =
      addWriteList (baseModelIso G1 G2 G1.nodes.length)
        (uniqKeys G1 G1.nodes.length) (2 * A_isomorphism) := by
  simp only [dqmBuildIso, baseModelIso, b1Keys]
  rw [uniq_fold_iso_eq, b1_fold_eq, b2_fold_eq]

end BuildStages

section EdgeIndexLemmas

variable {α : Type} [DecidableEq α] [Inhabited α]

lemma hasEdge_iff {G : Graph α} {u v : α} :
    hasEdge G u v = true ↔
      ∃ e ∈ G.edges, (e.1 = u ∧ e.2 = v) ∨ (e.1 = v ∧ e.2 = u) := by
  rw [hasEdge, List.any_eq_true]
  constructor
  · rintro ⟨e, he, hd⟩
    exact ⟨e, he, decide_eq_true_iff.mp hd⟩
  · rintro ⟨e, he, hd⟩
    exact ⟨e, he, decide_eq_true_iff.mpr hd⟩

lemma hasEdge_symm (G : Graph α) (u v : α) : hasEdge G u v = hasEdge G v u := by
  rw [Bool.eq_iff_iff, hasEdge_iff, hasEdge_iff]
  constructor
  · rintro ⟨e, he, hd⟩
    exact ⟨e, he, hd.symm⟩
  · rintro ⟨e, he, hd⟩
    exact ⟨e, he, hd.symm⟩

lemma edgeAtCases_symm (G2 : Graph α) (i j : ℕ) :
    edgeAtCases G2 i j = edgeAtCases G2 j i := by
  rw [edgeAtCases, edgeAtCases, hasEdge_symm]

lemma getD_indexOf {l : List α} {a : α} (h : a ∈ l) :
    l.getD (l.indexOf a) default = a := by
  have hlt : l.indexOf a < l.length := List.indexOf_lt_length.mpr h
  rw [List.getD_eq_getElem l default hlt]
  exact List.indexOf_get hlt

lemma indexOf_getD {l : List α} (hl : l.Nodup) {i : ℕ} (hi : i < l.length) :
    l.indexOf (l.getD i default) = i := by
  have hmem : l.getD i default ∈ l := by
    rw [List.getD_eq_getElem l default hi]
    exact List.getElem_mem hi
  have hlt : l.indexOf (l.getD i default) < l.length := List.indexOf_lt_length.mpr hmem
  have hget : l.get ⟨l.indexOf (l.getD i default), hlt⟩ = l.get ⟨i, hi⟩ := by
    rw [List.indexOf_get hlt, List.getD_eq_getElem l default hi]
    rfl
  have := (hl.get_inj_iff).mp hget
  exact congrArg Fin.val this

lemma indexOf_ne_of_ne {l : List α} {a b : α} (ha : a ∈ l) (hb : b ∈ l)
    (hab : a ≠ b) : l.indexOf a ≠ l.indexOf b := by
  intro h
  exact hab ((List.indexOf_inj ha hb).mp h)

end EdgeIndexLemmas

section KeyConditions

variable {α : Type} [DecidableEq α] [Inhabited α]

lemma uniq_cond {G1 : Graph α} {n : ℕ} {u v : α} {cu cv : ℕ}
    (hu : u ∈ G1.nodes) (hv : v ∈ G1.nodes) (huv : u ≠ v) (hcu : cu < n) :
    (∃ k ∈ uniqKeys G1 n, qkeyMatch (u, cu) (v, cv) k) ↔ cu = cv := by
  constructor
  · rintro ⟨k, hk, hm⟩
    rw [uniqKeys] at hk
    obtain ⟨t, ht, hk2⟩ := mem_catMap.mp hk
    obtain ⟨uv, huvp, rfl⟩ := List.mem_map.mp hk2
    rcases hm with ⟨h3, h4⟩ | ⟨h3, h4⟩
    · have hct : cu = t := congrArg Prod.snd h3
      have hvt : cv = t := congrArg Prod.snd h4
      rw [hct, hvt]
    · have hct : cu = t := congrArg Prod.snd h3
      have hvt : cv = t := congrArg Prod.snd h4
      rw [hct, hvt]
  · intro hcc
    subst hcc
    rcases pairsOf_complete hu hv huv with hp | hp
    · refine ⟨((u, cu), (v, cu)), ?_, Or.inl ⟨rfl, rfl⟩⟩
      rw [uniqKeys]
      exact mem_catMap.mpr ⟨cu, List.mem_range.mpr hcu,
        List.mem_map.mpr ⟨(u, v), hp, rfl⟩⟩
    · refine ⟨((v, cu), (u, cu)), ?_, Or.inr ⟨rfl, rfl⟩⟩
      rw [uniqKeys]
      exact mem_catMap.mpr ⟨cu, List.mem_range.mpr hcu,
        List.mem_map.mpr ⟨(v, u), hp, rfl⟩⟩

lemma b1_cond {G1 G2 : Graph α} {n : ℕ} {u v : α} {cu cv : ℕ}
    (hcu : cu < n) (hcv : cv < n) :
    (∃ k ∈ b1Keys G1 G2 n, qkeyMatch (u, cu) (v, cv) k) ↔
      (hasEdge G1 u v = true ∧ cu ≠ cv ∧ edgeAtCases G2 cu cv = false) := by
  constructor
  · rintro ⟨k, hk, hm⟩
    rw [b1Keys] at hk
    obtain ⟨e1, he1, hk2⟩ := mem_catMap.mp hk
    obtain ⟨ij, hij, hk3⟩ := mem_catMap.mp hk2
    by_cases hec : edgeAtCases G2 ij.1 ij.2
    · rw [if_pos hec] at hk3
      exact absurd hk3 (List.not_mem_nil _)
    · rw [if_neg hec] at hk3
      have hecf : edgeAtCases G2 ij.1 ij.2 = false := by
        revert hec; cases edgeAtCases G2 ij.1 ij.2 <;> simp
      have hijne : ij.1 ≠ ij.2 := pairsOf_ne hij (List.nodup_range n)
      have hedge : ∀ a b : α, (e1.1 = a ∧ e1.2 = b) ∨ (e1.1 = b ∧ e1.2 = a) →
          hasEdge G1 a b = true := by
        intro a b hab
        exact hasEdge_iff.mpr ⟨e1, he1, hab⟩
      rcases List.mem_cons.mp hk3 with rfl | hk4
      · rcases hm with ⟨h3, h4⟩ | ⟨h3, h4⟩
        · have h5 : u = e1.1 := congrArg Prod.fst h3
          have h6 : cu = ij.1 := congrArg Prod.snd h3
          have h7 : v = e1.2 := congrArg Prod.fst h4
          have h8 : cv = ij.2 := congrArg Prod.snd h4
          subst h5; subst h6; subst h7; subst h8
          exact ⟨hedge _ _ (Or.inl ⟨rfl, rfl⟩), hijne, hecf⟩
        · have h5 : u = e1.2 := congrArg Prod.fst h3
          have h6 : cu = ij.2 := congrArg Prod.snd h3
          have h7 : v = e1.1 := congrArg Prod.fst h4
          have h8 : cv = ij.1 := congrArg Prod.snd h4
          subst h5; subst h6; subst h7; subst h8
          exact ⟨hedge _ _ (Or.inr ⟨rfl, rfl⟩), Ne.symm hijne,
            (edgeAtCases_symm G2 ij.1 ij.2) ▸ hecf⟩
      · rcases List.mem_cons.mp hk4 with rfl | hk5
        · rcases hm with ⟨h3, h4⟩ | ⟨h3, h4⟩
          · have h5 : u = e1.1 := congrArg Prod.fst h3
            have h6 : cu = ij.2 := congrArg Prod.snd h3
            have h7 : v = e1.2 := congrArg Prod.fst h4
            have h8 : cv = ij.1 := congrArg Prod.snd h4
            subst h5; subst h6; subst h7; subst h8
            exact ⟨hedge _ _ (Or.inl ⟨rfl, rfl⟩), Ne.symm hijne,
              (edgeAtCases_symm G2 ij.1 ij.2) ▸ hecf⟩
          · have h5 : u = e1.2 := congrArg Prod.fst h3
            have h6 : cu = ij.1 := congrArg Prod.snd h3
            have h7 : v = e1.1 := congrArg Prod.fst h4
            have h8 : cv = ij.2 := congrArg Prod.snd h4
            subst h5; subst h6; subst h7; subst h8
            exact ⟨hedge _ _ (Or.inr ⟨rfl, rfl⟩), hijne, hecf⟩
        · exact absurd hk5 (List.not_mem_nil _)
  · rintro ⟨he, hne, hec⟩
    obtain ⟨e, heG, hor⟩ := hasEdge_iff.mp he
    have hmem1 : cu ∈ List.range n := List.mem_range.mpr hcu
    have hmem2 : cv ∈ List.range n := List.mem_range.mpr hcv
    have hecf : ¬ (edgeAtCases G2 cu cv = true) := by rw [hec]; simp
    have hecf' : ¬ (edgeAtCases G2 cv cu = true) := by
      rw [edgeAtCases_symm, hec]; simp
    rcases pairsOf_complete hmem1 hmem2 hne with hp | hp
    · rcases hor with ⟨h1, h2⟩ | ⟨h1, h2⟩
      · refine ⟨((e.1, cu), (e.2, cv)), ?_, Or.inl ⟨by rw [h1], by rw [h2]⟩⟩
        rw [b1Keys]
        refine mem_catMap.mpr ⟨e, heG, mem_catMap.mpr ⟨(cu, cv), hp, ?_⟩⟩
        rw [if_neg hecf]
        simp
      · refine ⟨((e.1, cv), (e.2, cu)), ?_, Or.inr ⟨by rw [h2], by rw [h1]⟩⟩
        rw [b1Keys]
        refine mem_catMap.mpr ⟨e, heG, mem_catMap.mpr ⟨(cu, cv), hp, ?_⟩⟩
        rw [if_neg hecf]
        simp
    · rcases hor with ⟨h1, h2⟩ | ⟨h1, h2⟩
      · refine ⟨((e.1, cu), (e.2, cv)), ?_, Or.inl ⟨by rw [h1], by rw [h2]⟩⟩
        rw [b1Keys]
        refine mem_catMap.mpr ⟨e, heG, mem_catMap.mpr ⟨(cv, cu), hp, ?_⟩⟩
        rw [if_neg hecf']
        simp
      · refine ⟨((e.1, cv), (e.2, cu)), ?_, Or.inr ⟨by rw [h2], by rw [h1]⟩⟩
        rw [b1Keys]
        refine mem_catMap.mpr ⟨e, heG, mem_catMap.mpr ⟨(cv, cu), hp, ?_⟩⟩
        rw [if_neg hecf']
        simp

lemma b2_cond {G1 G2 : Graph α} {u v : α} {cu cv : ℕ}
    (hwf2 : G2.WF) (hu : u ∈ G1.nodes) (hv : v ∈ G1.nodes) (huv : u ≠ v)
    (hcu : cu < G2.nodes.length) (hcv : cv < G2.nodes.length) :
    (∃ k ∈ b2Keys G1 G2, qkeyMatch (u, cu) (v, cv) k) ↔
      (hasEdge G1 u v = false ∧ cu ≠ cv ∧ edgeAtCases G2 cu cv = true) := by
  obtain ⟨hnd2, hend2, _⟩ := hwf2
  constructor
  · rintro ⟨k, hk, hm⟩
    rw [b2Keys] at hk
    obtain ⟨e2, he2, hk2⟩ := mem_catMap.mp hk
    obtain ⟨uv, huvp, hk3⟩ := mem_catMap.mp hk2
    by_cases hge : hasEdge G1 uv.1 uv.2
    · rw [if_pos hge] at hk3
      exact absurd hk3 (List.not_mem_nil _)
    · rw [if_neg hge] at hk3
      have hgef : hasEdge G1 uv.1 uv.2 = false := by
        revert hge; cases hasEdge G1 uv.1 uv.2 <;> simp
      obtain ⟨hm1, hm2, hne12⟩ := hend2 e2 he2
      have hi2 : G2.nodes.indexOf e2.1 ≠ G2.nodes.indexOf e2.2 :=
        indexOf_ne_of_ne hm1 hm2 hne12
      have hg1 : G2.nodes.getD (G2.nodes.indexOf e2.1) default = e2.1 := getD_indexOf hm1
      have hg2 : G2.nodes.getD (G2.nodes.indexOf e2.2) default = e2.2 := getD_indexOf hm2
      have hat : edgeAtCases G2 (G2.nodes.indexOf e2.1) (G2.nodes.indexOf e2.2) = true := by
        rw [edgeAtCases, hg1, hg2]
        exact hasEdge_iff.mpr ⟨e2, he2, Or.inl ⟨rfl, rfl⟩⟩
      have hedge : ∀ a b : α, (uv.1 = a ∧ uv.2 = b) ∨ (uv.1 = b ∧ uv.2 = a) →
          hasEdge G1 a b = false := by
        rintro a b (⟨ha, hb⟩ | ⟨ha, hb⟩)
        · rw [← ha, ← hb]; exact hgef
        · rw [← ha, ← hb, hasEdge_symm]; exact hgef
      rcases List.mem_cons.mp hk3 with rfl | hk4
      · rcases hm with ⟨h3, h4⟩ | ⟨h3, h4⟩
        · have h5 : u = uv.1 := congrArg Prod.fst h3
          have h6 : cu = G2.nodes.indexOf e2.1 := congrArg Prod.snd h3
          have h7 : v = uv.2 := congrArg Prod.fst h4
          have h8 : cv = G2.nodes.indexOf e2.2 := congrArg Prod.snd h4
          subst h6; subst h8
          exact ⟨hedge u v (Or.inl ⟨h5.symm, h7.symm⟩), hi2, hat⟩
        · have h5 : u = uv.2 := congrArg Prod.fst h3
          have h6 : cu = G2.nodes.indexOf e2.2 := congrArg Prod.snd h3
          have h7 : v = uv.1 := congrArg Prod.fst h4
          have h8 : cv = G2.nodes.indexOf e2.1 := congrArg Prod.snd h4
          subst h6; subst h8
          exact ⟨hedge u v (Or.inr ⟨h7.symm, h5.symm⟩), Ne.symm hi2,
            (edgeAtCases_symm G2 _ _) ▸ hat⟩
      · rcases List.mem_cons.mp hk4 with rfl | hk5
        · rcases hm with ⟨h3, h4⟩ | ⟨h3, h4⟩
          · have h5 : u = uv.1 := congrArg Prod.fst h3
            have h6 : cu = G2.nodes.indexOf e2.2 := congrArg Prod.snd h3
            have h7 : v = uv.2 := congrArg Prod.fst h4
            have h8 : cv = G2.nodes.indexOf e2.1 := congrArg Prod.snd h4
            subst h6; subst h8
            exact ⟨hedge u v (Or.inl ⟨h5.symm, h7.symm⟩), Ne.symm hi2,
              (edgeAtCases_symm G2 _ _) ▸ hat⟩
          · have h5 : u = uv.2 := congrArg Prod.fst h3
            have h6 : cu = G2.nodes.indexOf e2.1 := congrArg Prod.snd h3
            have h7 : v = uv.1 := congrArg Prod.fst h4
            have h8 : cv = G2.nodes.indexOf e2.2 := congrArg Prod.snd h4
            subst h6; subst h8
            exact ⟨hedge u v (Or.inr ⟨h7.symm, h5.symm⟩), hi2, hat⟩
        · exact absurd hk5 (List.not_mem_nil _)
  · rintro ⟨hge, hne, hat⟩
    rw [edgeAtCases] at hat
    obtain ⟨e, heG, hor⟩ := hasEdge_iff.mp hat
    have hgef : ¬ (hasEdge G1 u v = true) := by rw [hge]; simp
    have hgef' : ¬ (hasEdge G1 v u = true) := by rw [hasEdge_symm, hge]; simp
    rcases pairsOf_complete hu hv huv with hp | hp
    · rcases hor with ⟨h1, h2⟩ | ⟨h1, h2⟩
      · have hia : G2.nodes.indexOf e.1 = cu := by rw [h1]; exact indexOf_getD hnd2 hcu
        have hib : G2.nodes.indexOf e.2 = cv := by rw [h2]; exact indexOf_getD hnd2 hcv
        refine ⟨((u, G2.nodes.indexOf e.1), (v, G2.nodes.indexOf e.2)), ?_,
          Or.inl ⟨by rw [hia], by rw [hib]⟩⟩
        rw [b2Keys]
        refine mem_catMap.mpr ⟨e, heG, mem_catMap.mpr ⟨(u, v), hp, ?_⟩⟩
        rw [if_neg hgef]
        simp
      · have hia : G2.nodes.indexOf e.1 = cv := by rw [h1]; exact indexOf_getD hnd2 hcv
        have hib : G2.nodes.indexOf e.2 = cu := by rw [h2]; exact indexOf_getD hnd2 hcu
        refine ⟨((u, G2.nodes.indexOf e.2), (v, G2.nodes.indexOf e.1)), ?_,
          Or.inl ⟨by rw [hib], by rw [hia]⟩⟩
        rw [b2Keys]
        refine mem_catMap.mpr ⟨e, heG, mem_catMap.mpr ⟨(u, v), hp, ?_⟩⟩
        rw [if_neg hgef]
        simp
    · rcases hor with ⟨h1, h2⟩ | ⟨h1, h2⟩
      · have hia : G2.nodes.indexOf e.1 = cu := by rw [h1]; exact indexOf_getD hnd2 hcu
        have hib : G2.nodes.indexOf e.2 = cv := by rw [h2]; exact indexOf_getD hnd2 hcv
        refine ⟨((v, G2.nodes.indexOf e.2), (u, G2.nodes.indexOf e.1)), ?_,
          Or.inr ⟨by rw [hia], by rw [hib]⟩⟩
        rw [b2Keys]
        refine mem_catMap.mpr ⟨e, heG, mem_catMap.mpr ⟨(v, u), hp, ?_⟩⟩
        rw [if_neg hgef']
        simp
      · have hia : G2.nodes.indexOf e.1 = cv := by rw [h1]; exact indexOf_getD hnd2 hcv
        have hib : G2.nodes.indexOf e.2 = cu := by rw [h2]; exact indexOf_getD hnd2 hcu
        refine ⟨((v, G2.nodes.indexOf e.1), (u, G2.nodes.indexOf e.2)), ?_,
          Or.inr ⟨by rw [hib], by rw [hia]⟩⟩
        rw [b2Keys]
        refine mem_catMap.mpr ⟨e, heG, mem_catMap.mpr ⟨(v, u), hp, ?_⟩⟩
        rw [if_neg hgef']
        simp

end KeyConditions

section QuadChar

variable {α : Type} [DecidableEq α] [Inhabited α]

lemma dqmBuild_quad {G1 G2 : Graph α} (hwf2 : G2.WF)
    (hlen : G1.nodes.length = G2.nodes.length)
    {u v : α} {cu cv : ℕ} (hu : u ∈ G1.nodes) (hv : v ∈ G1.nodes) (huv : u ≠ v)
    (hcu : cu < G1.nodes.length) (hcv : cv < G1.nodes.length) :
    (dqmBuild G1 G2).quadratic (u, cu) (v, cv) =
      if cu = cv then 2
      else if hasEdge G1 u v ≠ edgeAtCases G2 cu cv then B_equivalence else 0 := by
  rw [dqmBuild_stages, writeList_quadratic, writeList_quadratic, writeList_quadratic,
    baseModel_quadratic]
  have hcu2 : cu < G2.nodes.length := hlen ▸ hcu
  have hcv2 : cv < G2.nodes.length := hlen ▸ hcv
  by_cases hcc : cu = cv
  · have hb2 : ¬ ∃ k ∈ b2Keys G1 G2, qkeyMatch (u, cu) (v, cv) k := by
      rw [b2_cond hwf2 hu hv huv hcu2 hcv2]
      rintro ⟨_, hne, _⟩
      exact hne hcc
    have hb1 : ¬ ∃ k ∈ b1Keys G1 G2 G1.nodes.length, qkeyMatch (u, cu) (v, cv) k := by
      rw [b1_cond hcu hcv]
      rintro ⟨_, hne, _⟩
      exact hne hcc
    have hun : ∃ k ∈ uniqKeys G1 G1.nodes.length, qkeyMatch (u, cu) (v, cv) k :=
      (uniq_cond hu hv huv hcu).mpr hcc
    rw [if_neg hb2, if_neg hb1, if_pos hun, if_pos hcc]
  · have hun : ¬ ∃ k ∈ uniqKeys G1 G1.nodes.length, qkeyMatch (u, cu) (v, cv) k := by
      rw [uniq_cond hu hv huv hcu]
      exact hcc
    rw [if_neg hcc]
    by_cases hmm : hasEdge G1 u v = edgeAtCases G2 cu cv
    · have hb1 : ¬ ∃ k ∈ b1Keys G1 G2 G1.nodes.length, qkeyMatch (u, cu) (v, cv) k := by
        rw [b1_cond hcu hcv]
        rintro ⟨he, _, hef⟩
        rw [he, hef] at hmm
        exact Bool.true_eq_false.mp hmm
      have hb2 : ¬ ∃ k ∈ b2Keys G1 G2, qkeyMatch (u, cu) (v, cv) k := by
        rw [b2_cond hwf2 hu hv huv hcu2 hcv2]
        rintro ⟨he, _, het⟩
        rw [he, het] at hmm
        exact Bool.false_eq_true.mp hmm
      rw [if_neg hb2, if_neg hb1, if_neg hun, if_neg (by simp [hmm])]
    · have hmm' : hasEdge G1 u v ≠ edgeAtCases G2 cu cv := hmm
      cases he : hasEdge G1 u v with
      | true =>
        have hef : edgeAtCases G2 cu cv = false := by
          cases hat : edgeAtCases G2 cu cv
          · rfl
          · rw [he, hat] at hmm; exact absurd rfl hmm
        have hb1 : ∃ k ∈ b1Keys G1 G2 G1.nodes.length, qkeyMatch (u, cu) (v, cv) k :=
          (b1_cond hcu hcv).mpr ⟨he, hcc, hef⟩
        have hb2 : ¬ ∃ k ∈ b2Keys G1 G2, qkeyMatch (u, cu) (v, cv) k := by
          rw [b2_cond hwf2 hu hv huv hcu2 hcv2]
          rintro ⟨hgef, _, _⟩
          rw [he] at hgef
          exact Bool.true_eq_false.mp hgef
        rw [if_neg hb2, if_pos hb1, hef]
        simp
      | false =>
        have het : edgeAtCases G2 cu cv = true := by
          cases hat : edgeAtCases G2 cu cv
          · rw [he, hat] at hmm; exact absurd rfl hmm
          · rfl
        have hb2 : ∃ k ∈ b2Keys G1 G2, qkeyMatch (u, cu) (v, cv) k :=
          (b2_cond hwf2 hu hv huv hcu2 hcv2).mpr ⟨he, hcc, het⟩
        rw [if_pos hb2, het]
        simp

lemma baseModelIso_quadratic (G1 G2 : Graph α) (n : ℕ) (p q : α × ℕ) :
    (baseModelIso G1 G2 n).quadratic p q =
      if ∃ k ∈ b2Keys G1 G2, qkeyMatch p q k then B_isomorphism
      else if ∃ k ∈ b1Keys G1 G2 n, qkeyMatch p q k then B_isomorphism else 0 := by
  rw [baseModelIso, foldl_setLinear_quadratic, writeList_quadratic, writeList_quadratic,
    foldl_addVariable_quadratic]
  rfl

lemma baseModelIso_symm (G1 G2 : Graph α) (n : ℕ) :
    ∀ r s, (baseModelIso G1 G2 n).quadratic r s = (baseModelIso G1 G2 n).quadratic s r := by
  intro r s
  rw [baseModelIso_quadratic, baseModelIso_quadratic]
  have h2 : (∃ k ∈ b2Keys G1 G2, qkeyMatch r s k) ↔
      (∃ k ∈ b2Keys G1 G2, qkeyMatch s r k) := by
    constructor <;> rintro ⟨k, hk, hm⟩ <;> exact ⟨k, hk, qkeyMatch_symm.mp hm⟩
  have h1 : (∃ k ∈ b1Keys G1 G2 n, qkeyMatch r s k) ↔
      (∃ k ∈ b1Keys G1 G2 n, qkeyMatch s r k) := by
    constructor <;> rintro ⟨k, hk, hm⟩ <;> exact ⟨k, hk, qkeyMatch_symm.mp hm⟩
  rw [if_congr h2 rfl (if_congr h1 rfl rfl)]

lemma uniqKeys_pairwise {G1 : Graph α} {n : ℕ} (h1 : G1.nodes.Nodup) :
    (uniqKeys G1 n).Pairwise (fun k k' => ¬ sameQKey k k') := by
  rw [uniqKeys]
  have hnd : (List.range n).Pairwise (fun t t' : ℕ => t ≠ t') := List.nodup_range n
  refine pairwise_catMap ?_ hnd ?_
  · intro t _ t' _ htt k hk k' hk' hsame
    obtain ⟨uv, _, hke⟩ := List.mem_map.mp hk
    obtain ⟨uv', _, hke'⟩ := List.mem_map.mp hk'
    subst hke; subst hke'
    rcases hsame with ⟨h3, _⟩ | ⟨h3, _⟩ <;> exact htt (congrArg Prod.snd h3)
  · intro t ht
    rw [List.pairwise_map]
    refine List.Pairwise.imp ?_ (pairsOf_pairwise_ne h1)
    intro a b hne hsame
    apply hne
    rcases hsame with ⟨h3, h4⟩ | ⟨h3, h4⟩
    · exact Or.inl ⟨congrArg (Prod.fst : α × ℕ → α) h3,
        congrArg (Prod.fst : α × ℕ → α) h4⟩
    · exact Or.inr ⟨congrArg (Prod.fst : α × ℕ → α) h3,
        congrArg (Prod.fst : α × ℕ → α) h4⟩

lemma dqmBuildIso_quad {G1 G2 : Graph α} (hwf2 : G2.WF)
    (hlen : G1.nodes.length = G2.nodes.length) (h1 : G1.nodes.Nodup)
    {u v : α} {cu cv : ℕ} (hu : u ∈ G1.nodes) (hv : v ∈ G1.nodes) (huv : u ≠ v)
    (hcu : cu < G1.nodes.length) (hcv : cv < G1.nodes.length) :
    (dqmBuildIso G1 G2).quadratic (u, cu) (v, cv) =
      if cu = cv then 2 * A_isomorphism
      else if hasEdge G1 u v ≠ edgeAtCases G2 cu cv then B_isomorphism else 0 := by
  rw [dqmBuildIso_stages]
  rw [addWriteList_quadratic (2 * A_isomorphism) (u, cu) (v, cv)
    (uniqKeys G1 G1.nodes.length) (baseModelIso G1 G2 G1.nodes.length)
    (baseModelIso_symm G1 G2 G1.nodes.length) (uniqKeys_pairwise h1)]
  rw [baseModelIso_quadratic]
  have hcu2 : cu < G2.nodes.length := hlen ▸ hcu
  have hcv2 : cv < G2.nodes.length := hlen ▸ hcv
  by_cases hcc : cu = cv
  · have hb2 : ¬ ∃ k ∈ b2Keys G1 G2, qkeyMatch (u, cu) (v, cv) k := by
      rw [b2_cond hwf2 hu hv huv hcu2 hcv2]
      rintro ⟨_, hne, _⟩
      exact hne hcc
    have hb1 : ¬ ∃ k ∈ b1Keys G1 G2 G1.nodes.length, qkeyMatch (u, cu) (v, cv) k := by
      rw [b1_cond hcu hcv]
      rintro ⟨_, hne, _⟩
      exact hne hcc
    have hun : ∃ k ∈ uniqKeys G1 G1.nodes.length, qkeyMatch (u, cu) (v, cv) k :=
      (uniq_cond hu hv huv hcu).mpr hcc
    rw [if_neg hb2, if_neg hb1, if_pos hun, if_pos hcc, zero_add]
  · have hun : ¬ ∃ k ∈ uniqKeys G1 G1.nodes.length, qkeyMatch (u, cu) (v, cv) k := by
      rw [uniq_cond hu hv huv hcu]
      exact hcc
    rw [if_neg hcc, if_neg hun, add_zero]
    by_cases hmm : hasEdge G1 u v = edgeAtCases G2 cu cv
    · have hb1 : ¬ ∃ k ∈ b1Keys G1 G2 G1.nodes.length, qkeyMatch (u, cu) (v, cv) k := by
        rw [b1_cond hcu hcv]
        rintro ⟨he, _, hef⟩
        rw [he, hef] at hmm
        exact Bool.true_eq_false.mp hmm
      have hb2 : ¬ ∃ k ∈ b2Keys G1 G2, qkeyMatch (u, cu) (v, cv) k := by
        rw [b2_cond hwf2 hu hv huv hcu2 hcv2]
        rintro ⟨he, _, het⟩
        rw [he, het] at hmm
        exact Bool.false_eq_true.mp hmm
      rw [if_neg hb2, if_neg hb1, if_neg (by simp [hmm])]
    · have hmm' : hasEdge G1 u v ≠ edgeAtCases G2 cu cv := hmm
      cases he : hasEdge G1 u v with
      | true =>
        have hef : edgeAtCases G2 cu cv = false := by
          cases hat : edgeAtCases G2 cu cv
          · rfl
          · rw [he, hat] at hmm; exact absurd rfl hmm
        have hb1 : ∃ k ∈ b1Keys G1 G2 G1.nodes.length, qkeyMatch (u, cu) (v, cv) k :=
          (b1_cond hcu hcv).mpr ⟨he, hcc, hef⟩
        have hb2 : ¬ ∃ k ∈ b2Keys G1 G2, qkeyMatch (u, cu) (v, cv) k := by
          rw [b2_cond hwf2 hu hv huv hcu2 hcv2]
          rintro ⟨hgef, _, _⟩
          rw [he] at hgef
          exact Bool.true_eq_false.mp hgef
        rw [if_neg hb2, if_pos hb1, hef]
        simp
      | false =>
        have het : edgeAtCases G2 cu cv = true := by
          cases hat : edgeAtCases G2 cu cv
          · rw [he, hat] at hmm; exact absurd rfl hmm
          · rfl
        have hb2 : ∃ k ∈ b2Keys G1 G2, qkeyMatch (u, cu) (v, cv) k :=
          (b2_cond hwf2 hu hv huv hcu2 hcv2).mpr ⟨he, hcc, het⟩
        rw [if_pos hb2, het]
        simp

end QuadChar

section EnergyLemmas

variable {α : Type} [DecidableEq α] [Inhabited α]

lemma dqmBuild_offset (G1 G2 : Graph α) :
    (dqmBuild G1 G2).offset = (G1.nodes.length : ℚ) := by
  rw [dqmBuild_stages, writeList_offset, writeList_offset, writeList_offset,
    baseModel_offset]

lemma dqmBuild_cases (G1 G2 : Graph α) :
    (dqmBuild G1 G2).cases = G1.nodes.map (fun v => (v, G1.nodes.length)) := by
  rw [dqmBuild_stages, writeList_cases, writeList_cases, writeList_cases,
    baseModel_cases]

lemma dqmBuild_vars (G1 G2 : Graph α) :
    (dqmBuild G1 G2).cases.map Prod.fst = G1.nodes := by
  rw [dqmBuild_cases, List.map_map]
  rw [show (Prod.fst ∘ fun v : α => (v, G1.nodes.length)) = id from rfl, List.map_id]

lemma dqmBuild_linear (G1 G2 : Graph α) (u : α) (c : ℕ) :
    (dqmBuild G1 G2).linear u c =
      if u ∈ G1.nodes then (if c < G1.nodes.length then -1 else 0) else 0 := by
  rw [dqmBuild_stages, writeList_linear, writeList_linear, writeList_linear,
    baseModel_linear]

lemma dqmBuildIso_offset (G1 G2 : Graph α) : (dqmBuildIso G1 G2).offset = 0 := by
  rw [dqmBuildIso_stages, addWriteList_offset, baseModelIso, foldl_setLinear_offset,
    writeList_offset, writeList_offset, foldl_addVariable_offset]
  rfl

lemma dqmBuildIso_cases (G1 G2 : Graph α) :
    (dqmBuildIso G1 G2).cases = G1.nodes.map (fun v => (v, G1.nodes.length)) := by
  rw [dqmBuildIso_stages, addWriteList_cases, baseModelIso, foldl_setLinear_cases,
    writeList_cases, writeList_cases, foldl_addVariable_cases]
  rfl

lemma dqmBuildIso_vars (G1 G2 : Graph α) :
    (dqmBuildIso G1 G2).cases.map Prod.fst = G1.nodes := by
  rw [dqmBuildIso_cases, List.map_map]
  rw [show (Prod.fst ∘ fun v : α => (v, G1.nodes.length)) = id from rfl, List.map_id]

lemma dqmBuildIso_linear (G1 G2 : Graph α) (u : α) (c : ℕ) :
    (dqmBuildIso G1 G2).linear u c =
      if u ∈ G1.nodes then (if c < G1.nodes.length then -A_isomorphism else 0)
      else 0 := by
  rw [dqmBuildIso_stages, addWriteList_linear, baseModelIso, foldl_setLinear_linear,
    writeList_linear, writeList_linear, foldl_addVariable_linear]
  rfl

lemma energy_dqmBuild {G1 G2 : Graph α} (hwf1 : G1.WF) (hwf2 : G2.WF)
    (hlen : G1.nodes.length = G2.nodes.length) {f : α → ℕ}
    (hf : ValidAssign G1 G1.nodes.length f) :
    (dqmBuild G1 G2).energy f =
      ((pairsOf G1.nodes).map (fun p => eqTerm G1 G2 f p.1 p.2)).sum := by
  rw [DQM.energy, dqmBuild_offset, dqmBuild_vars]
  have hlin : ∀ v ∈ G1.nodes, (dqmBuild G1 G2).linear v (f v) = -1 := by
    intro v hv
    rw [dqmBuild_linear]
    simp [hv, hf v hv]
  rw [List.map_congr_left hlin, sum_map_neg_one, pairSum_eq_pairsOf]
  have hquad : ∀ p ∈ pairsOf G1.nodes,
      (dqmBuild G1 G2).quadratic (p.1, f p.1) (p.2, f p.2) =
        eqTerm G1 G2 f p.1 p.2 := by
    intro p hp
    obtain ⟨hu, hv⟩ := pairsOf_mem_fst hp
    have huv : p.1 ≠ p.2 := pairsOf_ne hp hwf1.1
    rw [dqmBuild_quad hwf2 hlen hu hv huv (hf p.1 hu) (hf p.2 hv), eqTerm]
  rw [List.map_congr_left hquad]
  ring

lemma energy_dqmBuildIso {G1 G2 : Graph α} (hwf1 : G1.WF) (hwf2 : G2.WF)
    (hlen : G1.nodes.length = G2.nodes.length) {f : α → ℕ}
    (hf : ValidAssign G1 G1.nodes.length f) :
    (dqmBuildIso G1 G2).energy f = -(G1.nodes.length : ℚ)
      + ((pairsOf G1.nodes).map (fun p => isoTerm G1 G2 f p.1 p.2)).sum := by
  rw [DQM.energy, dqmBuildIso_offset, dqmBuildIso_vars]
  have hlin : ∀ v ∈ G1.nodes, (dqmBuildIso G1 G2).linear v (f v) = -1 := by
    intro v hv
    rw [dqmBuildIso_linear]
    simp [hv, hf v hv, A_isomorphism]
  rw [List.map_congr_left hlin, sum_map_neg_one, pairSum_eq_pairsOf]
  have hquad : ∀ p ∈ pairsOf G1.nodes,
      (dqmBuildIso G1 G2).quadratic (p.1, f p.1) (p.2, f p.2) =
        isoTerm G1 G2 f p.1 p.2 := by
    intro p hp
    obtain ⟨hu, hv⟩ := pairsOf_mem_fst hp
    have huv : p.1 ≠ p.2 := pairsOf_ne hp hwf1.1
    rw [dqmBuildIso_quad hwf2 hlen hwf1.1 hu hv huv (hf p.1 hu) (hf p.2 hv), isoTerm]
  rw [List.map_congr_left hquad]
  ring

lemma eqTerm_nonneg (G1 G2 : Graph α) (f : α → ℕ) (u v : α) :
    0 ≤ eqTerm G1 G2 f u v := by
  rw [eqTerm, B_equivalence]
  split
  · norm_num
  · split
    · norm_num
    · norm_num

lemma isoTerm_nonneg (G1 G2 : Graph α) (f : α → ℕ) (u v : α) :
    0 ≤ isoTerm G1 G2 f u v := by
  rw [isoTerm, B_isomorphism, A_isomorphism]
  split
  · norm_num
  · split
    · norm_num
    · norm_num

lemma eqTerm_zero_iff (G1 G2 : Graph α) (f : α → ℕ) (u v : α) :
    eqTerm G1 G2 f u v = 0 ↔
      (f u ≠ f v ∧ hasEdge G1 u v = edgeAtCases G2 (f u) (f v)) := by
  rw [eqTerm, B_equivalence]
  by_cases h1 : f u = f v
  · simp [h1]
  · simp only [h1, if_false, Bool.false_eq_true, ne_eq, not_false_eq_true, true_and]
    by_cases h2 : hasEdge G1 u v = edgeAtCases G2 (f u) (f v)
    · simp [h2]
    · simp [h2]

lemma isoTerm_zero_iff (G1 G2 : Graph α) (f : α → ℕ) (u v : α) :
    isoTerm G1 G2 f u v = 0 ↔
      (f u ≠ f v ∧ hasEdge G1 u v = edgeAtCases G2 (f u) (f v)) := by
  rw [isoTerm, B_isomorphism, A_isomorphism]
  by_cases h1 : f u = f v
  · simp [h1]
  · simp only [h1, if_false, Bool.false_eq_true, ne_eq, not_false_eq_true, true_and]
    by_cases h2 : hasEdge G1 u v = edgeAtCases G2 (f u) (f v)
    · simp [h2]
    · simp [h2]

lemma surj_of_inj {l : List α} (hl : l.Nodup) {f : α → ℕ}
    (hv : ∀ v ∈ l, f v < l.length)
    (hinj : ∀ u ∈ l, ∀ v ∈ l, u ≠ v → f u ≠ f v) :
    ∀ i, i < l.length → ∃ u ∈ l, f u = i := by
  intro i hi
  have hnd : (l.map f).Nodup := by
    refine List.Nodup.map_on ?_ hl
    intro x hx y hy hxy
    by_contra hne
    exact hinj x hx y hy hne hxy
  have hsub : (l.map f).toFinset ⊆ Finset.range l.length := by
    intro x hx
    rw [List.mem_toFinset, List.mem_map] at hx
    obtain ⟨u, hu, rfl⟩ := hx
    exact Finset.mem_range.mpr (hv u hu)
  have hcard : (Finset.range l.length).card ≤ (l.map f).toFinset.card := by
    rw [List.toFinset_card_of_nodup hnd, List.length_map, Finset.card_range]
  have heq : (l.map f).toFinset = Finset.range l.length :=
    Finset.eq_of_subset_of_card_le hsub hcard
  have : i ∈ (l.map f).toFinset := by
    rw [heq]
    exact Finset.mem_range.mpr hi
  rw [List.mem_toFinset, List.mem_map] at this
  obtain ⟨u, hu, hfu⟩ := this
  exact ⟨u, hu, hfu⟩

lemma allPairsZero_iff {G1 G2 : Graph α} (hwf1 : G1.WF) {f : α → ℕ}
    (hf : ValidAssign G1 G1.nodes.length f) :
    (∀ p ∈ pairsOf G1.nodes, eqTerm G1 G2 f p.1 p.2 = 0) ↔ IsIsoAssign G1 G2 f := by
  constructor
  · intro hall
    have hkey : ∀ u ∈ G1.nodes, ∀ v ∈ G1.nodes, u ≠ v →
        (f u ≠ f v ∧ hasEdge G1 u v = edgeAtCases G2 (f u) (f v)) := by
      intro u hu v hv huv
      rcases pairsOf_complete hu hv huv with hp | hp
      · exact (eqTerm_zero_iff G1 G2 f u v).mp (hall (u, v) hp)
      · obtain ⟨hne, heq⟩ := (eqTerm_zero_iff G1 G2 f v u).mp (hall (v, u) hp)
        refine ⟨fun hc => hne hc.symm, ?_⟩
        rw [hasEdge_symm, heq, edgeAtCases_symm]
    have hinj : ∀ u ∈ G1.nodes, ∀ v ∈ G1.nodes, u ≠ v → f u ≠ f v :=
      fun u hu v hv huv => (hkey u hu v hv huv).1
    refine ⟨hf, hinj, surj_of_inj hwf1.1 hf hinj, ?_, ?_⟩
    · intro u hu v hv huv he
      have := (hkey u hu v hv huv).2
      rw [← this]
      exact he
    · intro u hu v hv huv he
      have := (hkey u hu v hv huv).2
      rw [this]
      exact he
  · rintro ⟨hvalid, hinj, hsurj, hfwd, hbwd⟩
    intro p hp
    obtain ⟨hu, hv⟩ := pairsOf_mem_fst hp
    have huv : p.1 ≠ p.2 := pairsOf_ne hp hwf1.1
    rw [eqTerm_zero_iff]
    refine ⟨hinj p.1 hu p.2 hv huv, ?_⟩
    rw [Bool.eq_iff_iff]
    constructor
    · exact hfwd p.1 hu p.2 hv huv
    · exact hbwd p.1 hu p.2 hv huv

end EnergyLemmas

section ScanLemmas

lemma scanSamples_eq (G2nodes : List String) :
    ∀ samples : List (Sample String), scanSamples G2nodes samples =
      (((samples.takeWhile (fun s => npIsClose s.energy 0)).map
        (fun s => toMapping G2nodes s.sample)).filter validMapping).head? := by
  intro samples
  induction samples with
  | nil => rfl
  | cons s rest ih =>
    by_cases h : npIsClose s.energy 0
    · by_cases hvm : validMapping (toMapping G2nodes s.sample)
      · simp [scanSamples, h, hvm, List.takeWhile_cons]
      · simp [scanSamples, h, hvm, List.takeWhile_cons, ih]
    · simp [scanSamples, h, List.takeWhile_cons]

end ScanLemmas

section FindLemmas

variable {α : Type} [DecidableEq α] [Inhabited α]

lemma find_isomorphism_eq (sampler : DQM α → List (Sample α)) (G1 G2 : Graph α)
    (hlen : G1.nodes.length = G2.nodes.length) :
    find_isomorphism sampler G1 G2 =
      match (sampler (dqmBuild G1 G2)).head? with
      | none => none
      | some best =>
        if npIsClose best.energy 0 then some (toMapping G2.nodes best.sample)
        else none := by
  have hcd : create_dqm G1 G2 = some (dqmBuild G1 G2) := by simp [create_dqm, hlen]
  rw [find_isomorphism, if_neg (not_ne_iff.mpr hlen), hcd]

lemma find_isomorphism_iso_eq (sampler : DQM α → List (Sample α)) (G1 G2 : Graph α)
    (hlen : G1.nodes.length = G2.nodes.length) :
    find_isomorphism_iso sampler G1 G2 =
      match (sampler (dqmBuildIso G1 G2)).head? with
      | none => none
      | some best =>
        if best.energy = -(G1.nodes.length : ℚ) then some (toMapping G2.nodes best.sample)
        else none := by
  have hcd : create_dqm_iso G1 G2 = some (dqmBuildIso G1 G2) := by
    simp [create_dqm_iso, hlen]
  rw [find_isomorphism_iso, if_neg (not_ne_iff.mpr hlen), hcd]

lemma find_equivalence_eq (sampler : DQM String → List (Sample String)) (C1 C2 : Circuit)
    (hlen : C1.G.nodes.length = C2.G.nodes.length) :
    find_equivalence sampler C1 C2 =
      match (sampler (dqmBuild C1.G C2.G)).head? with
      | none => none
      | some first =>
        if !npIsClose first.energy 0 then none
        else scanSamples C2.G.nodes (sampler (dqmBuild C1.G C2.G)) := by
  have hcd : create_dqm C1.G C2.G = some (dqmBuild C1.G C2.G) := by
    simp [create_dqm, hlen]
  rw [find_equivalence, if_neg (not_ne_iff.mpr hlen), hcd]

end FindLemmas

/-- C4 (amended): in the `src/equivalence.py` model the coefficients are
`A = 1`, `B = 2`: both strictly positive with `B = 2A` (so `B ≥ 2A`
holds).  In the `src/isomorphism.py` model they are `A = 1`, `B = 1`: both
strictly positive but `B < 2A`, so the claimed bound `B ≥ 2A` fails for
that revision.  The last four conjuncts exhibit the coefficients in the
built models: the quadratic bias of a mismatched edge pair is `B` and the
same-target bias is `2A`, for a concrete graph pair. -/
theorem claim_C4 :
    (0 < A_equivalence ∧ 0 < B_equivalence ∧ 2 * A_equivalence ≤ B_equivalence)
    ∧ (0 < A_isomorphism ∧ 0 < B_isomorphism ∧ ¬ (2 * A_isomorphism ≤ B_isomorphism))
    ∧ (dqmBuild (⟨[0, 1], [(0, 1)]⟩ : Graph ℕ) ⟨[0, 1], []⟩).quadratic (0, 0) (1, 1)
        = B_equivalence
    ∧ (dqmBuild (⟨[0, 1], [(0, 1)]⟩ : Graph ℕ) ⟨[0, 1], []⟩).quadratic (0, 0) (1, 0)
        = 2 * A_equivalence
    ∧ (dqmBuildIso (⟨[0, 1], [(0, 1)]⟩ : Graph ℕ) ⟨[0, 1], []⟩).quadratic (0, 0) (1, 1)
        = B_isomorphism
    ∧ (dqmBuildIso (⟨[0, 1], [(0, 1)]⟩ : Graph ℕ) ⟨[0, 1], []⟩).quadratic (0, 0) (1, 0)
        = 2 * A_isomorphism := by
  refine ⟨⟨by norm_num [A_equivalence], by norm_num [B_equivalence],
      by norm_num [A_equivalence, B_equivalence]⟩,
    ⟨by norm_num [A_isomorphism], by norm_num [B_isomorphism],
      by norm_num [A_isomorphism, B_isomorphism]⟩, ?_, ?_, ?_, ?_⟩
  · rw [dqmBuild_quad (by decide) (by decide) (by decide) (by decide) (by decide)
      (by decide) (by decide)]
    rw [if_neg (by decide), if_pos (by decide)]
  · rw [dqmBuild_quad (by decide) (by decide) (by decide) (by decide) (by decide)
      (by decide) (by decide)]
    rw [if_pos rfl]
    norm_num [A_equivalence]
  · rw [dqmBuildIso_quad (by decide) (by decide) (by decide) (by decide) (by decide)
      (by decide) (by decide) (by decide)]
    rw [if_neg (by decide), if_pos (by decide)]
  · rw [dqmBuildIso_quad (by decide) (by decide) (by decide) (by decide) (by decide)
      (by decide) (by decide) (by decide)]
    rw [if_pos rfl]

/-- Counterexample to C4 as stated: in the model `create_dqm` of
`src/isomorphism.py` builds, the edge-consistency bias is `B = 1` (shown
at a mismatched slot pair of a concrete model) while `2A = 2`, so `B ≥ 2A`
is false for that revision. -/
theorem claim_C4_cex :
    (dqmBuildIso (⟨[0, 1], [(0, 1)]⟩ : Graph ℕ) ⟨[0, 1], []⟩).quadratic (0, 0) (1, 1)
      = B_isomorphism
    ∧ ¬ (2 * A_isomorphism ≤ B_isomorphism) := by
  constructor
  · rw [dqmBuildIso_quad (by decide) (by decide) (by decide) (by decide) (by decide)
      (by decide) (by decide) (by decide)]
    rw [if_neg (by decide), if_pos (by decide)]
  · norm_num [A_isomorphism, B_isomorphism]

section KeyDisjointness

variable {α : Type} [DecidableEq α] [Inhabited α]

lemma sameEdge_refl {γ : Type} (x : γ × γ) : sameEdge x x := Or.inl ⟨rfl, rfl⟩

lemma sameEdge_symm' {γ : Type} {x y : γ × γ} (h : sameEdge x y) : sameEdge y x := by
  rcases h with ⟨h1, h2⟩ | ⟨h1, h2⟩
  · exact Or.inl ⟨h1.symm, h2.symm⟩
  · exact Or.inr ⟨h2.symm, h1.symm⟩

lemma sameEdge_trans {γ : Type} {x y z : γ × γ} (h : sameEdge x y) (h' : sameEdge y z) :
    sameEdge x z := by
  rcases h with ⟨h1, h2⟩ | ⟨h1, h2⟩ <;> rcases h' with ⟨h3, h4⟩ | ⟨h3, h4⟩
  · exact Or.inl ⟨h1.trans h3, h2.trans h4⟩
  · exact Or.inr ⟨h1.trans h3, h2.trans h4⟩
  · exact Or.inr ⟨h1.trans h4, h2.trans h3⟩
  · exact Or.inl ⟨h1.trans h4, h2.trans h3⟩

lemma sameEdge_diag {γ : Type} {t c d : γ} (h : sameEdge (t, t) (c, d)) : c = d := by
  rcases h with ⟨h1, h2⟩ | ⟨h1, h2⟩
  · exact h1.symm.trans h2
  · exact h2.symm.trans h1

lemma sameQKey_nodes {k k' : QKey α} (h : sameQKey k k') :
    sameEdge (k.1.1, k.2.1) (k'.1.1, k'.2.1) := by
  rcases h with ⟨h1, h2⟩ | ⟨h1, h2⟩
  · exact Or.inl ⟨congrArg (Prod.fst : α × ℕ → α) h1,
      congrArg (Prod.fst : α × ℕ → α) h2⟩
  · exact Or.inr ⟨congrArg (Prod.fst : α × ℕ → α) h1,
      congrArg (Prod.fst : α × ℕ → α) h2⟩

lemma sameQKey_cases {k k' : QKey α} (h : sameQKey k k') :
    sameEdge ((k.1.2, k.2.2) : ℕ × ℕ) (k'.1.2, k'.2.2) := by
  rcases h with ⟨h1, h2⟩ | ⟨h1, h2⟩
  · exact Or.inl ⟨congrArg (Prod.snd : α × ℕ → ℕ) h1,
      congrArg (Prod.snd : α × ℕ → ℕ) h2⟩
  · exact Or.inr ⟨congrArg (Prod.snd : α × ℕ → ℕ) h1,
      congrArg (Prod.snd : α × ℕ → ℕ) h2⟩

lemma qkeyMatch_diag {p q : α × ℕ} {k : QKey α} (h : qkeyMatch p q k)
    (hc : k.1.2 = k.2.2) : p.2 = q.2 := by
  rcases h with ⟨h1, h2⟩ | ⟨h1, h2⟩
  · exact (congrArg Prod.snd h1).trans (hc.trans (congrArg Prod.snd h2).symm)
  · exact (congrArg Prod.snd h1).trans (hc.symm.trans (congrArg Prod.snd h2).symm)

lemma hasEdge_sameEdge_congr {G : Graph α} {x y : α × α} (h : sameEdge x y) :
    hasEdge G x.1 x.2 = hasEdge G y.1 y.2 := by
  rcases h with ⟨h1, h2⟩ | ⟨h1, h2⟩
  · rw [h1, h2]
  · rw [h1, h2, hasEdge_symm]

lemma mem_uniqKeys_cases {G1 : Graph α} {n : ℕ} {k : QKey α}
    (hk : k ∈ uniqKeys G1 n) : k.1.2 = k.2.2 := by
  rw [uniqKeys] at hk
  obtain ⟨t, _, hk2⟩ := mem_catMap.mp hk
  obtain ⟨uv, _, rfl⟩ := List.mem_map.mp hk2
  rfl

lemma mem_b1Keys_inner {G2 : Graph α} {n : ℕ} {e1 : α × α} {k : QKey α}
    (hk : k ∈ catMap (fun ij =>
      if edgeAtCases G2 ij.1 ij.2 then []
      else [((e1.1, ij.1), (e1.2, ij.2)), ((e1.1, ij.2), (e1.2, ij.1))])
      (pairsOf (List.range n))) :
    ∃ ij ∈ pairsOf (List.range n), k.1.1 = e1.1 ∧ k.2.1 = e1.2
      ∧ sameEdge ((k.1.2, k.2.2) : ℕ × ℕ) ij := by
  obtain ⟨ij, hij, hk2⟩ := mem_catMap.mp hk
  by_cases hec : edgeAtCases G2 ij.1 ij.2
  · rw [if_pos hec] at hk2
    exact absurd hk2 (List.not_mem_nil _)
  · rw [if_neg hec] at hk2
    rcases List.mem_cons.mp hk2 with rfl | hk3
    · exact ⟨ij, hij, rfl, rfl, Or.inl ⟨rfl, rfl⟩⟩
    · rcases List.mem_cons.mp hk3 with rfl | hk4
      · exact ⟨ij, hij, rfl, rfl, Or.inr ⟨rfl, rfl⟩⟩
      · exact absurd hk4 (List.not_mem_nil _)

lemma mem_b1Keys_shape {G1 G2 : Graph α} {n : ℕ} {k : QKey α}
    (hk : k ∈ b1Keys G1 G2 n) :
    hasEdge G1 k.1.1 k.2.1 = true ∧ k.1.2 ≠ k.2.2 := by
  rw [b1Keys] at hk
  obtain ⟨e1, he1, hk2⟩ := mem_catMap.mp hk
  obtain ⟨ij, hij, h1, h2, hse⟩ := mem_b1Keys_inner hk2
  have hne : ij.1 ≠ ij.2 := pairsOf_ne hij (List.nodup_range n)
  constructor
  · rw [h1, h2]
    exact hasEdge_iff.mpr ⟨e1, he1, Or.inl ⟨rfl, rfl⟩⟩
  · rcases hse with ⟨h3, h4⟩ | ⟨h3, h4⟩
    · intro hc
      exact hne ((h3.symm.trans hc).trans h4)
    · intro hc
      exact hne (h4.symm.trans (hc.symm.trans h3))

lemma mem_b2Keys_inner {G1 G2 : Graph α} {e2 : α × α} {k : QKey α}
    (hk : k ∈ catMap (fun uv =>
      if hasEdge G1 uv.1 uv.2 then []
      else [((uv.1, G2.nodes.indexOf e2.1), (uv.2, G2.nodes.indexOf e2.2)),
            ((uv.1, G2.nodes.indexOf e2.2), (uv.2, G2.nodes.indexOf e2.1))])
      (pairsOf G1.nodes)) :
    ∃ uv ∈ pairsOf G1.nodes, hasEdge G1 uv.1 uv.2 = false
      ∧ k.1.1 = uv.1 ∧ k.2.1 = uv.2
      ∧ sameEdge ((k.1.2, k.2.2) : ℕ × ℕ)
          (G2.nodes.indexOf e2.1, G2.nodes.indexOf e2.2) := by
  obtain ⟨uv, huv, hk2⟩ := mem_catMap.mp hk
  by_cases hge : hasEdge G1 uv.1 uv.2
  · rw [if_pos hge] at hk2
    exact absurd hk2 (List.not_mem_nil _)
  · rw [if_neg hge] at hk2
    have hgef : hasEdge G1 uv.1 uv.2 = false := by
      revert hge; cases hasEdge G1 uv.1 uv.2 <;> simp
    rcases List.mem_cons.mp hk2 with rfl | hk3
    · exact ⟨uv, huv, hgef, rfl, rfl, Or.inl ⟨rfl, rfl⟩⟩
    · rcases List.mem_cons.mp hk3 with rfl | hk4
      · exact ⟨uv, huv, hgef, rfl, rfl, Or.inr ⟨rfl, rfl⟩⟩
      · exact absurd hk4 (List.not_mem_nil _)

lemma mem_b2Keys_shape {G1 G2 : Graph α} (hwf2 : G2.WF) {k : QKey α}
    (hk : k ∈ b2Keys G1 G2) :
    hasEdge G1 k.1.1 k.2.1 = false ∧ k.1.2 ≠ k.2.2 := by
  rw [b2Keys] at hk
  obtain ⟨e2, he2, hk2⟩ := mem_catMap.mp hk
  obtain ⟨uv, huv, hgef, h1, h2, hse⟩ := mem_b2Keys_inner hk2
  obtain ⟨hm1, hm2, hne12⟩ := hwf2.2.1 e2 he2
  have hine : G2.nodes.indexOf e2.1 ≠ G2.nodes.indexOf e2.2 :=
    indexOf_ne_of_ne hm1 hm2 hne12
  constructor
  · rw [h1, h2]
    exact hgef
  · rcases hse with ⟨h3, h4⟩ | ⟨h3, h4⟩
    · intro hc
      exact hine ((h3.symm.trans hc).trans h4)
    · intro hc
      exact hine (h4.symm.trans (hc.symm.trans h3))

lemma mem_b1_ite {G2 : Graph α} {e1 : α × α} {ij : ℕ × ℕ} {k : QKey α}
    (hk : k ∈ (if edgeAtCases G2 ij.1 ij.2 then ([] : List (QKey α))
      else [((e1.1, ij.1), (e1.2, ij.2)), ((e1.1, ij.2), (e1.2, ij.1))])) :
    k.1.1 = e1.1 ∧ k.2.1 = e1.2 ∧ sameEdge ((k.1.2, k.2.2) : ℕ × ℕ) ij := by
  by_cases hec : edgeAtCases G2 ij.1 ij.2
  · rw [if_pos hec] at hk
    exact absurd hk (List.not_mem_nil _)
  · rw [if_neg hec] at hk
    rcases List.mem_cons.mp hk with rfl | hk2
    · exact ⟨rfl, rfl, Or.inl ⟨rfl, rfl⟩⟩
    · rcases List.mem_cons.mp hk2 with rfl | hk3
      · exact ⟨rfl, rfl, Or.inr ⟨rfl, rfl⟩⟩
      · exact absurd hk3 (List.not_mem_nil _)

lemma mem_b2_ite {G1 : Graph α} {i2 j2 : ℕ} {uv : α × α} {k : QKey α}
    (hk : k ∈ (if hasEdge G1 uv.1 uv.2 then ([] : List (QKey α))
      else [((uv.1, i2), (uv.2, j2)), ((uv.1, j2), (uv.2, i2))])) :
    k.1.1 = uv.1 ∧ k.2.1 = uv.2 ∧ sameEdge ((k.1.2, k.2.2) : ℕ × ℕ) (i2, j2) := by
  by_cases hge : hasEdge G1 uv.1 uv.2
  · rw [if_pos hge] at hk
    exact absurd hk (List.not_mem_nil _)
  · rw [if_neg hge] at hk
    rcases List.mem_cons.mp hk with rfl | hk2
    · exact ⟨rfl, rfl, Or.inl ⟨rfl, rfl⟩⟩
    · rcases List.mem_cons.mp hk2 with rfl | hk3
      · exact ⟨rfl, rfl, Or.inr ⟨rfl, rfl⟩⟩
      · exact absurd hk3 (List.not_mem_nil _)

lemma b1Keys_pairwise {G1 G2 : Graph α} {n : ℕ} (hwf1 : G1.WF) :
    (b1Keys G1 G2 n).Pairwise (fun k k' => ¬ sameQKey k k') := by
  rw [b1Keys]
  refine pairwise_catMap ?_ hwf1.2.2 ?_
  · intro e _ e' _ hee k hk k' hk' hsame
    obtain ⟨ij, _, h1, h2, _⟩ := mem_b1Keys_inner hk
    obtain ⟨ij', _, h1', h2', _⟩ := mem_b1Keys_inner hk'
    apply hee
    have hse := sameQKey_nodes hsame
    rw [h1, h2, h1', h2'] at hse
    exact hse
  · intro e he
    refine pairwise_catMap ?_ (pairsOf_pairwise_ne (List.nodup_range n)) ?_
    · intro ij _ ij' _ hij k hk k' hk' hsame
      obtain ⟨_, _, hc⟩ := mem_b1_ite hk
      obtain ⟨_, _, hc'⟩ := mem_b1_ite hk'
      exact hij (sameEdge_trans (sameEdge_trans (sameEdge_symm' hc)
        (sameQKey_cases hsame)) hc')
    · intro ij hij
      by_cases hec : edgeAtCases G2 ij.1 ij.2
      · rw [if_pos hec]
        exact List.Pairwise.nil
      · rw [if_neg hec]
        refine List.pairwise_cons.mpr ⟨?_, List.pairwise_cons.mpr
          ⟨fun k hk => absurd hk (List.not_mem_nil _), List.Pairwise.nil⟩⟩
        intro k hk hsame
        rcases List.mem_cons.mp hk with rfl | hk2
        · rcases hsame with ⟨h1, _⟩ | ⟨h1, _⟩
          · exact pairsOf_ne hij (List.nodup_range n)
              (congrArg (Prod.snd : α × ℕ → ℕ) h1)
          · exact (hwf1.2.1 e he).2.2 (congrArg (Prod.fst : α × ℕ → α) h1)
        · exact absurd hk2 (List.not_mem_nil _)

lemma b2Keys_pairwise {G1 G2 : Graph α} (hwf1 : G1.WF) (hwf2 : G2.WF) :
    (b2Keys G1 G2).Pairwise (fun k k' => ¬ sameQKey k k') := by
  rw [b2Keys]
  refine pairwise_catMap ?_ hwf2.2.2 ?_
  · intro e he e' he' hee k hk k' hk' hsame
    obtain ⟨uv, _, _, _, _, hc⟩ := mem_b2Keys_inner hk
    obtain ⟨uv', _, _, _, _, hc'⟩ := mem_b2Keys_inner hk'
    have hidx : sameEdge ((G2.nodes.indexOf e.1, G2.nodes.indexOf e.2) : ℕ × ℕ)
        (G2.nodes.indexOf e'.1, G2.nodes.indexOf e'.2) :=
      sameEdge_trans (sameEdge_trans (sameEdge_symm' hc) (sameQKey_cases hsame)) hc'
    obtain ⟨hm1, hm2, _⟩ := hwf2.2.1 e he
    obtain ⟨hm1', hm2', _⟩ := hwf2.2.1 e' he'
    apply hee
    rcases hidx with ⟨h1, h2⟩ | ⟨h1, h2⟩
    · exact Or.inl ⟨(List.indexOf_inj hm1 hm1').mp h1, (List.indexOf_inj hm2 hm2').mp h2⟩
    · exact Or.inr ⟨(List.indexOf_inj hm1 hm2').mp h1, (List.indexOf_inj hm2 hm1').mp h2⟩
  · intro e he
    refine pairwise_catMap ?_ (pairsOf_pairwise_ne hwf1.1) ?_
    · intro uv _ uv' _ huv k hk k' hk' hsame
      obtain ⟨h1, h2, _⟩ := mem_b2_ite hk
      obtain ⟨h1', h2', _⟩ := mem_b2_ite hk'
      apply huv
      have hse := sameQKey_nodes hsame
      rw [h1, h2, h1', h2'] at hse
      exact hse
    · intro uv huv
      by_cases hge : hasEdge G1 uv.1 uv.2
      · rw [if_pos hge]
        exact List.Pairwise.nil
      · rw [if_neg hge]
        refine List.pairwise_cons.mpr ⟨?_, List.pairwise_cons.mpr
          ⟨fun k hk => absurd hk (List.not_mem_nil _), List.Pairwise.nil⟩⟩
        intro k hk hsame
        rcases List.mem_cons.mp hk with rfl | hk2
        · obtain ⟨hm1, hm2, hne12⟩ := hwf2.2.1 e he
          rcases hsame with ⟨h1, _⟩ | ⟨h1, _⟩
          · exact indexOf_ne_of_ne hm1 hm2 hne12
              (congrArg (Prod.snd : α × ℕ → ℕ) h1)
          · exact pairsOf_ne huv hwf1.1 (congrArg (Prod.fst : α × ℕ → α) h1)
        · exact absurd hk2 (List.not_mem_nil _)

lemma dqmBuild_writes_eq (G1 G2 : Graph α) :
    (dqmBuild G1 G2).writes =
      uniqKeys G1 G1.nodes.length ++ b1Keys G1 G2 G1.nodes.length ++ b2Keys G1 G2 := by
  rw [dqmBuild_stages, writeList_writes, writeList_writes, writeList_writes,
    baseModel_writes, List.nil_append]

lemma writes_pairwise {G1 G2 : Graph α} (hwf1 : G1.WF) (hwf2 : G2.WF) :
    (dqmBuild G1 G2).writes.Pairwise (fun k k' => ¬ sameQKey k k') := by
  rw [dqmBuild_writes_eq]
  rw [List.pairwise_append, List.pairwise_append]
  refine ⟨⟨uniqKeys_pairwise hwf1.1, b1Keys_pairwise hwf1, ?_⟩,
    b2Keys_pairwise hwf1 hwf2, ?_⟩
  · intro k hk k' hk' hsame
    have hkc := mem_uniqKeys_cases hk
    have hkc' := (mem_b1Keys_shape hk').2
    have hsc := sameQKey_cases hsame
    rw [← hkc] at hsc
    exact hkc' (sameEdge_diag hsc)
  · intro k hk k' hk'
    rcases List.mem_append.mp hk with hku | hkb
    · intro hsame
      have hkc := mem_uniqKeys_cases hku
      have hkc' := (mem_b2Keys_shape hwf2 hk').2
      have hsc := sameQKey_cases hsame
      rw [← hkc] at hsc
      exact hkc' (sameEdge_diag hsc)
    · intro hsame
      have he1 := (mem_b1Keys_shape hkb).1
      have he2 := (mem_b2Keys_shape hwf2 hk').1
      rcases sameQKey_nodes hsame with ⟨ha, hb⟩ | ⟨ha, hb⟩
      · have ha' : k.1.1 = k'.1.1 := ha
        have hb' : k.2.1 = k'.2.1 := hb
        rw [ha', hb', he2] at he1
        exact Bool.noConfusion he1
      · have ha' : k.1.1 = k'.2.1 := ha
        have hb' : k.2.1 = k'.1.1 := hb
        rw [ha', hb', hasEdge_symm, he2] at he1
        exact Bool.noConfusion he1

lemma dqmBuild_quad_values (G1 G2 : Graph α) (p q : α × ℕ) :
    (dqmBuild G1 G2).quadratic p q = 0
    ∨ (dqmBuild G1 G2).quadratic p q = B_equivalence := by
  rw [dqmBuild_stages, writeList_quadratic, writeList_quadratic, writeList_quadratic,
    baseModel_quadratic]
  by_cases h2 : ∃ k ∈ b2Keys G1 G2, qkeyMatch p q k
  · right
    rw [if_pos h2]
  · rw [if_neg h2]
    by_cases h1 : ∃ k ∈ b1Keys G1 G2 G1.nodes.length, qkeyMatch p q k
    · right
      rw [if_pos h1]
    · rw [if_neg h1]
      by_cases h0 : ∃ k ∈ uniqKeys G1 G1.nodes.length, qkeyMatch p q k
      · right
        rw [if_pos h0]
        rfl
      · left
        rw [if_neg h0]

lemma additive_quad_eq {G1 G2 : Graph α} (hwf1 : G1.WF) (hwf2 : G2.WF) :
    ∀ p q, (dqmBuildAdditive G1 G2).quadratic p q = (dqmBuild G1 G2).quadratic p q := by
  intro p q
  rw [dqmBuildAdditive_stages, dqmBuild_stages]
  have hbase_sym : ∀ r s, (baseModel G1 G1.nodes.length).quadratic r s
      = (baseModel G1 G1.nodes.length).quadratic s r := by
    intro r s
    rw [baseModel_quadratic]
  have hbase_zero : ∀ r s, (baseModel G1 G1.nodes.length).quadratic r s = 0 := by
    intro r s
    rw [baseModel_quadratic]
  have h1 : ∀ r s,
      (addWriteList (baseModel G1 G1.nodes.length) (uniqKeys G1 G1.nodes.length)
        2).quadratic r s
      = (writeList (baseModel G1 G1.nodes.length) (uniqKeys G1 G1.nodes.length)
        2).quadratic r s :=
    addWriteList_eq_writeList 2 _ _ hbase_sym (uniqKeys_pairwise hwf1.1)
      (fun k _ => hbase_zero k.1 k.2)
  have hW1_sym := writeList_symm 2 (uniqKeys G1 G1.nodes.length)
    (baseModel G1 G1.nodes.length) hbase_sym
  have hW1_zero : ∀ k ∈ b1Keys G1 G2 G1.nodes.length,
      (writeList (baseModel G1 G1.nodes.length) (uniqKeys G1 G1.nodes.length)
        2).quadratic k.1 k.2 = 0 := by
    intro k hk
    rw [writeList_quadratic]
    have hno : ¬ ∃ k' ∈ uniqKeys G1 G1.nodes.length, qkeyMatch k.1 k.2 k' := by
      rintro ⟨k', hk', hm⟩
      exact (mem_b1Keys_shape hk).2 (qkeyMatch_diag hm (mem_uniqKeys_cases hk'))
    rw [if_neg hno, hbase_zero]
  have h2 : ∀ r s,
      (addWriteList (addWriteList (baseModel G1 G1.nodes.length)
          (uniqKeys G1 G1.nodes.length) 2)
        (b1Keys G1 G2 G1.nodes.length) B_equivalence).quadratic r s
      = (writeList (writeList (baseModel G1 G1.nodes.length)
          (uniqKeys G1 G1.nodes.length) 2)
        (b1Keys G1 G2 G1.nodes.length) B_equivalence).quadratic r s := by
    intro r s
    rw [addWriteList_quad_congr B_equivalence (b1Keys G1 G2 G1.nodes.length) h1 r s]
    exact addWriteList_eq_writeList B_equivalence _ _ hW1_sym
      (b1Keys_pairwise hwf1) hW1_zero r s
  have hW2_sym := writeList_symm B_equivalence (b1Keys G1 G2 G1.nodes.length)
    (writeList (baseModel G1 G1.nodes.length) (uniqKeys G1 G1.nodes.length) 2) hW1_sym
  have hW2_zero : ∀ k ∈ b2Keys G1 G2,
      (writeList (writeList (baseModel G1 G1.nodes.length)
          (uniqKeys G1 G1.nodes.length) 2)
        (b1Keys G1 G2 G1.nodes.length) B_equivalence).quadratic k.1 k.2 = 0 := by
    intro k hk
    rw [writeList_quadratic]
    have hnob1 : ¬ ∃ k' ∈ b1Keys G1 G2 G1.nodes.length, qkeyMatch k.1 k.2 k' := by
      rintro ⟨k', hk', hm⟩
      have h1 := (mem_b2Keys_shape hwf2 hk).1
      have h2 := (mem_b1Keys_shape hk').1
      rcases sameQKey_nodes hm with ⟨ha, hb⟩ | ⟨ha, hb⟩
      · have ha' : k.1.1 = k'.1.1 := ha
        have hb' : k.2.1 = k'.2.1 := hb
        rw [ha', hb', h2] at h1
        exact Bool.noConfusion h1
      · have ha' : k.1.1 = k'.2.1 := ha
        have hb' : k.2.1 = k'.1.1 := hb
        rw [ha', hb', hasEdge_symm, h2] at h1
        exact Bool.noConfusion h1
    rw [if_neg hnob1, writeList_quadratic]
    have hnou : ¬ ∃ k' ∈ uniqKeys G1 G1.nodes.length, qkeyMatch k.1 k.2 k' := by
      rintro ⟨k', hk', hm⟩
      exact (mem_b2Keys_shape hwf2 hk).2 (qkeyMatch_diag hm (mem_uniqKeys_cases hk'))
    rw [if_neg hnou, hbase_zero]
  rw [addWriteList_quad_congr B_equivalence (b2Keys G1 G2) h2 p q]
  exact addWriteList_eq_writeList B_equivalence _ _ hW2_sym
    (b2Keys_pairwise hwf1 hwf2) hW2_zero p q

end KeyDisjointness

section MainEnergy

variable {α : Type} [DecidableEq α] [Inhabited α]

lemma energy_nonneg_and_zero_iff {G1 G2 : Graph α} (hwf1 : G1.WF) (hwf2 : G2.WF)
    (hlen : G1.nodes.length = G2.nodes.length) {f : α → ℕ}
    (hf : ValidAssign G1 G1.nodes.length f) :
    0 ≤ (dqmBuild G1 G2).energy f
    ∧ ((dqmBuild G1 G2).energy f = 0 ↔ IsIsoAssign G1 G2 f) := by
  rw [energy_dqmBuild hwf1 hwf2 hlen hf]
  have hnn : ∀ x ∈ (pairsOf G1.nodes).map (fun p => eqTerm G1 G2 f p.1 p.2), 0 ≤ x := by
    rintro x hx
    obtain ⟨p, hp, rfl⟩ := List.mem_map.mp hx
    exact eqTerm_nonneg G1 G2 f p.1 p.2
  refine ⟨list_sum_nonneg hnn, ?_⟩
  rw [list_sum_eq_zero_iff hnn]
  constructor
  · intro hall
    refine (allPairsZero_iff hwf1 hf).mp ?_
    intro p hp
    exact hall _ (List.mem_map.mpr ⟨p, hp, rfl⟩)
  · intro hiso x hx
    obtain ⟨p, hp, rfl⟩ := List.mem_map.mp hx
    exact (allPairsZero_iff hwf1 hf).mpr hiso p hp

end MainEnergy

/-- C1: for well-formed graphs of equal node count, the
`src/equivalence.py` model's optimal value `offset - A*n` equals `0`
(offset is `n`, `A = 1`); when the graphs are isomorphic that value is a
lower bound over all valid assignments, it is attained, and it is attained
exactly by the assignments realizing an isomorphism — bijections under
which G1 edges map onto G2 edges and the G2 edges between assigned cases
come from G1 edges; when they are not isomorphic every valid assignment's
energy strictly exceeds it. -/
theorem claim_C1 {α : Type} [DecidableEq α] [Inhabited α] (G1 G2 : Graph α)
    (hwf1 : G1.WF) (hwf2 : G2.WF) (hlen : G1.nodes.length = G2.nodes.length) :
    (dqmBuild G1 G2).offset - A_equivalence * (G1.nodes.length : ℚ) = 0
    ∧ (Isomorphic G1 G2 →
        (∀ f, ValidAssign G1 G1.nodes.length f →
          (dqmBuild G1 G2).offset - A_equivalence * (G1.nodes.length : ℚ)
            ≤ (dqmBuild G1 G2).energy f)
        ∧ (∃ f, IsIsoAssign G1 G2 f ∧ (dqmBuild G1 G2).energy f =
            (dqmBuild G1 G2).offset - A_equivalence * (G1.nodes.length : ℚ))
        ∧ (∀ f, ValidAssign G1 G1.nodes.length f →
            ((dqmBuild G1 G2).energy f =
                (dqmBuild G1 G2).offset - A_equivalence * (G1.nodes.length : ℚ)
              ↔ IsIsoAssign G1 G2 f)))
    ∧ (¬ Isomorphic G1 G2 → ∀ f, ValidAssign G1 G1.nodes.length f →
        (dqmBuild G1 G2).offset - A_equivalence * (G1.nodes.length : ℚ)
          < (dqmBuild G1 G2).energy f) := by
  have hoff : (dqmBuild G1 G2).offset - A_equivalence * (G1.nodes.length : ℚ) = 0 := by
    rw [dqmBuild_offset, A_equivalence]
    ring
  rw [hoff]
  refine ⟨rfl, fun hiso => ⟨?_, ?_, ?_⟩, fun hniso f hf => ?_⟩
  · intro f hf
    exact (energy_nonneg_and_zero_iff hwf1 hwf2 hlen hf).1
  · obtain ⟨f, hf⟩ := hiso
    exact ⟨f, hf, (energy_nonneg_and_zero_iff hwf1 hwf2 hlen hf.1).2.mpr hf⟩
  · intro f hf
    exact (energy_nonneg_and_zero_iff hwf1 hwf2 hlen hf).2
  · have h := energy_nonneg_and_zero_iff hwf1 hwf2 hlen hf
    refine lt_of_le_of_ne h.1 ?_
    intro heq
    exact hniso ⟨f, h.2.mp heq.symm⟩

/-- Witness for C1 at a concrete isomorphic pair of two-node path
graphs. -/
theorem claim_C1_witness :
    (⟨[0, 1], [(0, 1)]⟩ : Graph ℕ).WF ∧ (⟨[2, 3], [(2, 3)]⟩ : Graph ℕ).WF
    ∧ (⟨[0, 1], [(0, 1)]⟩ : Graph ℕ).nodes.length =
        (⟨[2, 3], [(2, 3)]⟩ : Graph ℕ).nodes.length
    ∧ ((dqmBuild (⟨[0, 1], [(0, 1)]⟩ : Graph ℕ) ⟨[2, 3], [(2, 3)]⟩).offset
          - A_equivalence * ((⟨[0, 1], [(0, 1)]⟩ : Graph ℕ).nodes.length : ℚ) = 0
      ∧ (Isomorphic (⟨[0, 1], [(0, 1)]⟩ : Graph ℕ) ⟨[2, 3], [(2, 3)]⟩ →
          (∀ f, ValidAssign (⟨[0, 1], [(0, 1)]⟩ : Graph ℕ)
              (⟨[0, 1], [(0, 1)]⟩ : Graph ℕ).nodes.length f →
            (dqmBuild (⟨[0, 1], [(0, 1)]⟩ : Graph ℕ) ⟨[2, 3], [(2, 3)]⟩).offset
                - A_equivalence * ((⟨[0, 1], [(0, 1)]⟩ : Graph ℕ).nodes.length : ℚ)
              ≤ (dqmBuild (⟨[0, 1], [(0, 1)]⟩ : Graph ℕ) ⟨[2, 3], [(2, 3)]⟩).energy f)
          ∧ (∃ f, IsIsoAssign (⟨[0, 1], [(0, 1)]⟩ : Graph ℕ) ⟨[2, 3], [(2, 3)]⟩ f
              ∧ (dqmBuild (⟨[0, 1], [(0, 1)]⟩ : Graph ℕ) ⟨[2, 3], [(2, 3)]⟩).energy f =
                (dqmBuild (⟨[0, 1], [(0, 1)]⟩ : Graph ℕ) ⟨[2, 3], [(2, 3)]⟩).offset
                  - A_equivalence * ((⟨[0, 1], [(0, 1)]⟩ : Graph ℕ).nodes.length : ℚ))
          ∧ (∀ f, ValidAssign (⟨[0, 1], [(0, 1)]⟩ : Graph ℕ)
                (⟨[0, 1], [(0, 1)]⟩ : Graph ℕ).nodes.length f →
              ((dqmBuild (⟨[0, 1], [(0, 1)]⟩ : Graph ℕ) ⟨[2, 3], [(2, 3)]⟩).energy f =
                  (dqmBuild (⟨[0, 1], [(0, 1)]⟩ : Graph ℕ) ⟨[2, 3], [(2, 3)]⟩).offset
                    - A_equivalence * ((⟨[0, 1], [(0, 1)]⟩ : Graph ℕ).nodes.length : ℚ)
                ↔ IsIsoAssign (⟨[0, 1], [(0, 1)]⟩ : Graph ℕ) ⟨[2, 3], [(2, 3)]⟩ f)))
      ∧ (¬ Isomorphic (⟨[0, 1], [(0, 1)]⟩ : Graph ℕ) ⟨[2, 3], [(2, 3)]⟩ →
          ∀ f, ValidAssign (⟨[0, 1], [(0, 1)]⟩ : Graph ℕ)
              (⟨[0, 1], [(0, 1)]⟩ : Graph ℕ).nodes.length f →
            (dqmBuild (⟨[0, 1], [(0, 1)]⟩ : Graph ℕ) ⟨[2, 3], [(2, 3)]⟩).offset
                - A_equivalence * ((⟨[0, 1], [(0, 1)]⟩ : Graph ℕ).nodes.length : ℚ)
              < (dqmBuild (⟨[0, 1], [(0, 1)]⟩ : Graph ℕ) ⟨[2, 3], [(2, 3)]⟩).energy f)) :=
  ⟨by decide, by decide, by decide,
    claim_C1 ⟨[0, 1], [(0, 1)]⟩ ⟨[2, 3], [(2, 3)]⟩ (by decide) (by decide) (by decide)⟩

/-- C7: the two `create_dqm` revisions are not behaviorally equivalent:
for a concrete pair of equal-sized graphs the assignment `id` has energies
differing by more than the constant offset `n` (here `|2 - (-1)| = 3 > 2`);
yet for all well-formed equal-sized graphs and valid assignments, the
energy is `offset - A*n = 0` under the `src/equivalence.py` model exactly
when it is `-n` under the `src/isomorphism.py` model. -/
theorem claim_C7 {α : Type} [DecidableEq α] [Inhabited α] (G1 G2 : Graph α)
    (hwf1 : G1.WF) (hwf2 : G2.WF) (hlen : G1.nodes.length = G2.nodes.length) :
    (∃ f : ℕ → ℕ,
      |(dqmBuild (⟨[0, 1], [(0, 1)]⟩ : Graph ℕ) ⟨[0, 1], []⟩).energy f
        - (dqmBuildIso (⟨[0, 1], [(0, 1)]⟩ : Graph ℕ) ⟨[0, 1], []⟩).energy f|
        > ((⟨[0, 1], [(0, 1)]⟩ : Graph ℕ).nodes.length : ℚ))
    ∧ ∀ f, ValidAssign G1 G1.nodes.length f →
        ((dqmBuild G1 G2).energy f = 0 ↔
          (dqmBuildIso G1 G2).energy f = -(G1.nodes.length : ℚ)) := by
  constructor
  · refine ⟨id, ?_⟩
    have h1 : (dqmBuild (⟨[0, 1], [(0, 1)]⟩ : Graph ℕ) ⟨[0, 1], []⟩).energy id =
        ((pairsOf (⟨[0, 1], [(0, 1)]⟩ : Graph ℕ).nodes).map
          (fun p => eqTerm (⟨[0, 1], [(0, 1)]⟩ : Graph ℕ) ⟨[0, 1], []⟩ id p.1 p.2)).sum :=
      energy_dqmBuild (by decide) (by decide) (by decide) (by decide)
    have h2 : (dqmBuildIso (⟨[0, 1], [(0, 1)]⟩ : Graph ℕ) ⟨[0, 1], []⟩).energy id =
        -(((⟨[0, 1], [(0, 1)]⟩ : Graph ℕ).nodes.length : ℕ) : ℚ)
        + ((pairsOf (⟨[0, 1], [(0, 1)]⟩ : Graph ℕ).nodes).map
          (fun p => isoTerm (⟨[0, 1], [(0, 1)]⟩ : Graph ℕ) ⟨[0, 1], []⟩ id p.1 p.2)).sum :=
      energy_dqmBuildIso (by decide) (by decide) (by decide) (by decide)
    rw [h1, h2]
    have hterm1 : eqTerm (⟨[0, 1], [(0, 1)]⟩ : Graph ℕ) ⟨[0, 1], []⟩ id 0 1 = 2 := by
      rw [eqTerm, if_neg (by decide), if_pos (by decide), B_equivalence]
    have hterm2 : isoTerm (⟨[0, 1], [(0, 1)]⟩ : Graph ℕ) ⟨[0, 1], []⟩ id 0 1 = 1 := by
      rw [isoTerm, if_neg (by decide), if_pos (by decide), B_isomorphism]
    rw [show pairsOf ((⟨[0, 1], [(0, 1)]⟩ : Graph ℕ).nodes) = [(0, 1)] from rfl]
    rw [List.map_cons, List.map_nil, List.sum_cons, List.sum_nil,
      List.map_cons, List.map_nil, List.sum_cons, List.sum_nil, hterm1, hterm2]
    rw [show ((2 : ℚ) + 0) - (-(((⟨[0, 1], [(0, 1)]⟩ : Graph ℕ).nodes.length : ℕ) : ℚ)
        + (1 + 0)) = 3 by push_cast; norm_num]
    rw [show (((⟨[0, 1], [(0, 1)]⟩ : Graph ℕ).nodes.length : ℕ) : ℚ) = 2 by push_cast; norm_num]
    rw [abs_of_pos (by norm_num)]
    norm_num
  · intro f hf
    rw [energy_dqmBuild hwf1 hwf2 hlen hf, energy_dqmBuildIso hwf1 hwf2 hlen hf]
    have hnn1 : ∀ x ∈ (pairsOf G1.nodes).map (fun p => eqTerm G1 G2 f p.1 p.2), 0 ≤ x := by
      rintro x hx
      obtain ⟨p, hp, rfl⟩ := List.mem_map.mp hx
      exact eqTerm_nonneg G1 G2 f p.1 p.2
    have hnn2 : ∀ x ∈ (pairsOf G1.nodes).map (fun p => isoTerm G1 G2 f p.1 p.2), 0 ≤ x := by
      rintro x hx
      obtain ⟨p, hp, rfl⟩ := List.mem_map.mp hx
      exact isoTerm_nonneg G1 G2 f p.1 p.2
    constructor
    · intro h0
      have hall := (list_sum_eq_zero_iff hnn1).mp h0
      have hs : ((pairsOf G1.nodes).map (fun p => isoTerm G1 G2 f p.1 p.2)).sum = 0 := by
        refine (list_sum_eq_zero_iff hnn2).mpr ?_
        rintro x hx
        obtain ⟨p, hp, rfl⟩ := List.mem_map.mp hx
        refine (isoTerm_zero_iff G1 G2 f p.1 p.2).mpr ?_
        exact (eqTerm_zero_iff G1 G2 f p.1 p.2).mp
          (hall _ (List.mem_map.mpr ⟨p, hp, rfl⟩))
      rw [hs, add_zero]
    · intro hn
      have hs : ((pairsOf G1.nodes).map (fun p => isoTerm G1 G2 f p.1 p.2)).sum = 0 := by
        linarith
      have hall := (list_sum_eq_zero_iff hnn2).mp hs
      refine (list_sum_eq_zero_iff hnn1).mpr ?_
      rintro x hx
      obtain ⟨p, hp, rfl⟩ := List.mem_map.mp hx
      refine (eqTerm_zero_iff G1 G2 f p.1 p.2).mpr ?_
      exact (isoTerm_zero_iff G1 G2 f p.1 p.2).mp
        (hall _ (List.mem_map.mpr ⟨p, hp, rfl⟩))

/-- Witness for C7 at a concrete pair of two-node graphs. -/
theorem claim_C7_witness :
    (⟨[0, 1], [(0, 1)]⟩ : Graph ℕ).WF ∧ (⟨[0, 1], []⟩ : Graph ℕ).WF
    ∧ (⟨[0, 1], [(0, 1)]⟩ : Graph ℕ).nodes.length = (⟨[0, 1], []⟩ : Graph ℕ).nodes.length
    ∧ ((∃ f : ℕ → ℕ,
        |(dqmBuild (⟨[0, 1], [(0, 1)]⟩ : Graph ℕ) ⟨[0, 1], []⟩).energy f
          - (dqmBuildIso (⟨[0, 1], [(0, 1)]⟩ : Graph ℕ) ⟨[0, 1], []⟩).energy f|
          > ((⟨[0, 1], [(0, 1)]⟩ : Graph ℕ).nodes.length : ℚ))
      ∧ ∀ f, ValidAssign (⟨[0, 1], [(0, 1)]⟩ : Graph ℕ)
          (⟨[0, 1], [(0, 1)]⟩ : Graph ℕ).nodes.length f →
          ((dqmBuild (⟨[0, 1], [(0, 1)]⟩ : Graph ℕ) ⟨[0, 1], []⟩).energy f = 0 ↔
            (dqmBuildIso (⟨[0, 1], [(0, 1)]⟩ : Graph ℕ) ⟨[0, 1], []⟩).energy f =
              -((⟨[0, 1], [(0, 1)]⟩ : Graph ℕ).nodes.length : ℚ))) :=
  ⟨by decide, by decide, by decide,
    claim_C7 ⟨[0, 1], [(0, 1)]⟩ ⟨[0, 1], []⟩ (by decide) (by decide) (by decide)⟩

/-- C2 (amended): given solver output starting with `best`,
`find_equivalence` returns `none` when the best energy is not
close to zero (`numpy.isclose` default tolerances), and otherwise scans
the samples in order, stopping at the first whose energy is not close to
zero, and returns the first mapping in that prefix passing the
transistor-type check the code performs: for every mapped pair, if the
source name contains `'nMOS'` the target must too, and likewise for
`'pMOS'` (a one-directional substring check, not equality of derived
categories). -/
theorem claim_C2 (sampler : DQM String → List (Sample String)) (C1 C2 : Circuit)
    (best : Sample String) (rest : List (Sample String))
    (hlen : C1.G.nodes.length = C2.G.nodes.length)
    (hs : sampler (dqmBuild C1.G C2.G) = best :: rest) :
    find_equivalence sampler C1 C2 =
      if npIsClose best.energy 0 then
        ((((best :: rest).takeWhile (fun s => npIsClose s.energy 0)).map
          (fun s => toMapping C2.G.nodes s.sample)).filter validMapping).head?
      else none := by
  rw [find_equivalence_eq sampler C1 C2 hlen, hs, List.head?_cons]
  by_cases h : npIsClose best.energy 0
  · simp only [h, Bool.not_true, Bool.false_eq_true, if_false, if_true]
    rw [scanSamples_eq]
  · simp [h]

/-- Witness for C2 at a concrete pair of one-node circuits and a
single-sample solver. -/
theorem claim_C2_witness :
    (Circuit.mk [] ⟨["a"], []⟩).G.nodes.length =
        (Circuit.mk [] ⟨["b"], []⟩).G.nodes.length
    ∧ ((fun _ : DQM String => [Sample.mk [("a", 0)] 0])
        (dqmBuild (Circuit.mk [] ⟨["a"], []⟩).G (Circuit.mk [] ⟨["b"], []⟩).G)
        = Sample.mk [("a", 0)] 0 :: [])
    ∧ find_equivalence (fun _ : DQM String => [Sample.mk [("a", 0)] 0])
        (Circuit.mk [] ⟨["a"], []⟩) (Circuit.mk [] ⟨["b"], []⟩) =
      if npIsClose (Sample.mk [("a", 0)] (0 : ℚ)).energy 0 then
        (((([Sample.mk [("a", 0)] 0]).takeWhile (fun s => npIsClose s.energy 0)).map
          (fun s => toMapping (Circuit.mk [] ⟨["b"], []⟩).G.nodes s.sample)).filter
            validMapping).head?
      else none :=
  ⟨rfl, rfl, claim_C2 (fun _ => [Sample.mk [("a", 0)] 0])
    (Circuit.mk [] ⟨["a"], []⟩) (Circuit.mk [] ⟨["b"], []⟩)
    (Sample.mk [("a", 0)] 0) [] rfl rfl⟩

/-- Counterexample to C2 as stated: on a best sample at the optimal
energy, the code returns a mapping that sends the uncategorized node
`"a"` to the NMOS node `"nMOS_x"` — a pair whose derived categories
differ — because its check is only one-directional; the claim's
"source category equals target category" rule would reject this sample. -/
theorem claim_C2_cex :
    find_equivalence (fun _ => [Sample.mk [("a", 0)] 0])
        (Circuit.mk [] ⟨["a"], []⟩) (Circuit.mk [] ⟨["nMOS_x"], []⟩)
      = some [("a", "nMOS_x")]
    ∧ categoryOf "a" ≠ categoryOf "nMOS_x" := by
  constructor
  · have hclose : npIsClose 0 0 = true := by
      rw [npIsClose]
      norm_num
    have hlen : (Circuit.mk [] ⟨["a"], []⟩).G.nodes.length =
        (Circuit.mk [] (⟨["nMOS_x"], []⟩ : Graph String)).G.nodes.length := rfl
    rw [find_equivalence_eq _ _ _ hlen]
    show (match ([Sample.mk [("a", 0)] (0 : ℚ)]).head? with
      | none => none
      | some first =>
        if !npIsClose first.energy 0 then none
        else scanSamples ["nMOS_x"] [Sample.mk [("a", 0)] 0]) = some [("a", "nMOS_x")]
    rw [List.head?_cons]
    simp only [hclose, Bool.not_true, Bool.false_eq_true, if_false]
    rw [scanSamples, if_pos hclose]
    have hvm : validMapping (toMapping ["nMOS_x"] [("a", 0)]) = true := by decide
    rw [if_pos hvm]
    decide
  · decide

/-- C3 (amended): with equal node counts and a nonempty sample list, the
`find_isomorphism` of `src/equivalence.py` returns the case-indexed
mapping of the best sample exactly when `numpy.isclose(best.energy, 0)`
holds (tolerance `1e-8 + 1e-5*|0|`), while the `find_isomorphism` of
`src/isomorphism.py` requires the exact equality `best.energy = -n` with
no floating tolerance at all; otherwise both return the no-result
sentinel. -/
theorem claim_C3 {α : Type} [DecidableEq α] [Inhabited α] (G1 G2 : Graph α)
    (sampler1 sampler2 : DQM α → List (Sample α))
    (best1 best2 : Sample α) (rest1 rest2 : List (Sample α))
    (hlen : G1.nodes.length = G2.nodes.length)
    (hs1 : sampler1 (dqmBuild G1 G2) = best1 :: rest1)
    (hs2 : sampler2 (dqmBuildIso G1 G2) = best2 :: rest2) :
    find_isomorphism sampler1 G1 G2 =
      (if npIsClose best1.energy 0 then some (toMapping G2.nodes best1.sample) else none)
    ∧ find_isomorphism_iso sampler2 G1 G2 =
      (if best2.energy = -(G1.nodes.length : ℚ) then some (toMapping G2.nodes best2.sample)
       else none) := by
  constructor
  · rw [find_isomorphism_eq sampler1 G1 G2 hlen, hs1, List.head?_cons]
  · rw [find_isomorphism_iso_eq sampler2 G1 G2 hlen, hs2, List.head?_cons]

/-- Witness for C3 at a concrete one-node graph pair and single-sample
solvers. -/
theorem claim_C3_witness :
    (⟨[0], []⟩ : Graph ℕ).nodes.length = (⟨[0], []⟩ : Graph ℕ).nodes.length
    ∧ ((fun _ : DQM ℕ => [Sample.mk [(0, 0)] 0])
        (dqmBuild (⟨[0], []⟩ : Graph ℕ) ⟨[0], []⟩) = Sample.mk [(0, 0)] 0 :: [])
    ∧ ((fun _ : DQM ℕ => [Sample.mk [(0, 0)] (-1)])
        (dqmBuildIso (⟨[0], []⟩ : Graph ℕ) ⟨[0], []⟩) = Sample.mk [(0, 0)] (-1) :: [])
    ∧ (find_isomorphism (fun _ => [Sample.mk [(0, 0)] 0]) (⟨[0], []⟩ : Graph ℕ) ⟨[0], []⟩ =
        (if npIsClose (Sample.mk [(0, 0)] (0 : ℚ)).energy 0 then
          some (toMapping (⟨[0], []⟩ : Graph ℕ).nodes (Sample.mk [(0, 0)] (0 : ℚ)).sample)
         else none)
      ∧ find_isomorphism_iso (fun _ => [Sample.mk [(0, 0)] (-1)])
          (⟨[0], []⟩ : Graph ℕ) ⟨[0], []⟩ =
        (if (Sample.mk [(0, 0)] (-1 : ℚ)).energy = -((⟨[0], []⟩ : Graph ℕ).nodes.length : ℚ)
         then some (toMapping (⟨[0], []⟩ : Graph ℕ).nodes
            (Sample.mk [(0, 0)] (-1 : ℚ)).sample)
         else none)) :=
  ⟨rfl, rfl, rfl, claim_C3 ⟨[0], []⟩ ⟨[0], []⟩ (fun _ => [Sample.mk [(0, 0)] 0])
    (fun _ => [Sample.mk [(0, 0)] (-1)]) (Sample.mk [(0, 0)] 0) (Sample.mk [(0, 0)] (-1))
    [] [] rfl rfl rfl⟩

/-- Counterexample to C3 as stated: a best sample whose energy is within
`1e-6` (indeed within every tolerance the code base uses — `npIsClose`
accepts it) of the isomorphism-optimal value `offset - A*n = -1`, yet
`find_isomorphism` of `src/isomorphism.py` returns the no-result sentinel,
because it tests exact equality with `-n` instead of a tolerance. -/
theorem claim_C3_cex :
    find_isomorphism_iso (fun _ => [Sample.mk [(("a" : String), 0)] (-1 + 1/1000000000)])
        ⟨["a"], []⟩ ⟨["b"], []⟩ = none
    ∧ npIsClose (-1 + 1/1000000000) (-1) = true
    ∧ |(-1 + 1/1000000000 : ℚ) - (-1)| < 1/1000000 := by
  refine ⟨?_, ?_, ?_⟩
  · have hlen : (⟨["a"], []⟩ : Graph String).nodes.length =
        (⟨["b"], []⟩ : Graph String).nodes.length := rfl
    rw [find_isomorphism_iso_eq _ _ _ hlen]
    show (if (Sample.mk [(("a" : String), 0)] (-1 + 1/1000000000 : ℚ)).energy =
        -(((⟨["a"], []⟩ : Graph String)).nodes.length : ℚ) then
        some (toMapping (⟨["b"], []⟩ : Graph String).nodes
          (Sample.mk [(("a" : String), 0)] (-1 + 1/1000000000 : ℚ)).sample)
      else none) = none
    have hne : (Sample.mk [(("a" : String), 0)] (-1 + 1/1000000000 : ℚ)).energy ≠
        -(((⟨["a"], []⟩ : Graph String)).nodes.length : ℚ) := by
      show (-1 + 1/1000000000 : ℚ) ≠ -((1 : ℕ) : ℚ)
      norm_num
    rw [if_neg hne]
  · rw [npIsClose]
    rw [show ((-1 + 1/1000000000 : ℚ) - (-1)) = 1/1000000000 by norm_num,
      abs_of_pos (by norm_num)]
    norm_num
  · rw [show ((-1 + 1/1000000000 : ℚ) - (-1)) = 1/1000000000 by norm_num,
      abs_of_pos (by norm_num)]
    norm_num

/-- C5: `create_dqm` (in both revisions) fails — modelled as returning
`none`, with no model value ever produced — exactly when the two node
counts differ; with equal counts it returns the built model.  The size
check is the first statement of the function, before the
`DiscreteQuadraticModel` is created, so the failure leaves no model
behind. -/
theorem claim_C5 {α : Type} [DecidableEq α] [Inhabited α] (G1 G2 : Graph α) :
    (create_dqm G1 G2 = none ↔ G1.nodes.length ≠ G2.nodes.length)
    ∧ (create_dqm_iso G1 G2 = none ↔ G1.nodes.length ≠ G2.nodes.length) := by
  constructor
  · by_cases h : G1.nodes.length ≠ G2.nodes.length <;> simp [create_dqm, h]
  · by_cases h : G1.nodes.length ≠ G2.nodes.length <;> simp [create_dqm_iso, h]

/-- C6: with unequal node counts, `find_isomorphism` (both revisions) and
`find_equivalence` return the no-result sentinel whatever the solver would
answer: the result is `none` for every sampler function, so the solver is
never consulted and (by C5) no model is built. -/
theorem claim_C6 {α : Type} [DecidableEq α] [Inhabited α] (G1 G2 : Graph α)
    (C1 C2 : Circuit) (h : G1.nodes.length ≠ G2.nodes.length)
    (hc : C1.G.nodes.length ≠ C2.G.nodes.length) :
    (∀ sampler : DQM α → List (Sample α), find_isomorphism sampler G1 G2 = none)
    ∧ (∀ sampler : DQM α → List (Sample α), find_isomorphism_iso sampler G1 G2 = none)
    ∧ (∀ sampler : DQM String → List (Sample String),
        find_equivalence sampler C1 C2 = none) := by
  refine ⟨fun sampler => ?_, fun sampler => ?_, fun sampler => ?_⟩
  · rw [find_isomorphism, if_pos h]
  · rw [find_isomorphism_iso, if_pos h]
  · rw [find_equivalence, if_pos hc]

/-- Witness for C6 at concrete graphs and circuits of sizes 1 and 0. -/
theorem claim_C6_witness :
    (⟨[0], []⟩ : Graph ℕ).nodes.length ≠ (⟨[], []⟩ : Graph ℕ).nodes.length
    ∧ (Circuit.mk [] ⟨["a"], []⟩).G.nodes.length ≠
        (Circuit.mk [] ⟨[], []⟩).G.nodes.length
    ∧ ((∀ sampler : DQM ℕ → List (Sample ℕ),
          find_isomorphism sampler ⟨[0], []⟩ ⟨[], []⟩ = none)
      ∧ (∀ sampler : DQM ℕ → List (Sample ℕ),
          find_isomorphism_iso sampler ⟨[0], []⟩ ⟨[], []⟩ = none)
      ∧ (∀ sampler : DQM String → List (Sample String),
          find_equivalence sampler (Circuit.mk [] ⟨["a"], []⟩)
            (Circuit.mk [] ⟨[], []⟩) = none)) :=
  ⟨by decide, by decide,
    claim_C6 ⟨[0], []⟩ ⟨[], []⟩ (Circuit.mk [] ⟨["a"], []⟩) (Circuit.mk [] ⟨[], []⟩)
      (by decide) (by decide)⟩

/-- C9: for equal node counts the model `create_dqm` returns has one
discrete variable per G1 node, in order, and every variable is created
with `n = |G2.nodes|` cases. -/
theorem claim_C9 {α : Type} [DecidableEq α] [Inhabited α] (G1 G2 : Graph α)
    (hlen : G1.nodes.length = G2.nodes.length) :
    create_dqm G1 G2 = some (dqmBuild G1 G2)
    ∧ (dqmBuild G1 G2).cases.map Prod.fst = G1.nodes
    ∧ (dqmBuild G1 G2).cases.length = G1.nodes.length
    ∧ ∀ p ∈ (dqmBuild G1 G2).cases, p.2 = G2.nodes.length := by
  refine ⟨by simp [create_dqm, hlen], dqmBuild_vars G1 G2, ?_, ?_⟩
  · rw [dqmBuild_cases, List.length_map]
  · intro p hp
    rw [dqmBuild_cases] at hp
    obtain ⟨v, _, rfl⟩ := List.mem_map.mp hp
    exact hlen

/-- C10: in `create_dqm` of equivalence.py the quadratic write families are
disjoint: the uniqueness keys pair distinct G1 nodes at equal cases, the first
edge-loop keys pair G1-adjacent nodes at distinct cases, the second edge-loop
keys pair G1-non-adjacent nodes at distinct cases; no key (up to the symmetric
identification of a quadratic key) is written twice in the whole build; every
quadratic bias of the built model is 0 or B = 2 = 2A; and the overwrite
semantics of `set_quadratic_case` coincides with additive accumulation. -/
theorem claim_C10 {α : Type} [DecidableEq α] [Inhabited α] (G1 G2 : Graph α)
    (hwf1 : G1.WF) (hwf2 : G2.WF) :
    (dqmBuild G1 G2).writes =
        uniqKeys G1 G1.nodes.length ++ b1Keys G1 G2 G1.nodes.length ++ b2Keys G1 G2
    ∧ (∀ k ∈ uniqKeys G1 G1.nodes.length, k.1.2 = k.2.2)
    ∧ (∀ k ∈ b1Keys G1 G2 G1.nodes.length,
        hasEdge G1 k.1.1 k.2.1 = true ∧ k.1.2 ≠ k.2.2)
    ∧ (∀ k ∈ b2Keys G1 G2, hasEdge G1 k.1.1 k.2.1 = false ∧ k.1.2 ≠ k.2.2)
    ∧ (dqmBuild G1 G2).writes.Pairwise (fun k k' => ¬ sameQKey k k')
    ∧ 2 * A_equivalence = B_equivalence
    ∧ (∀ p q, (dqmBuild G1 G2).quadratic p q = 0
        ∨ (dqmBuild G1 G2).quadratic p q = B_equivalence)
    ∧ (∀ p q, (dqmBuildAdditive G1 G2).quadratic p q = (dqmBuild G1 G2).quadratic p q) :=
  ⟨dqmBuild_writes_eq G1 G2, fun _ hk => mem_uniqKeys_cases hk,
    fun _ hk => mem_b1Keys_shape hk, fun _ hk => mem_b2Keys_shape hwf2 hk,
    writes_pairwise hwf1 hwf2, by rw [A_equivalence, B_equivalence]; norm_num,
    dqmBuild_quad_values G1 G2, additive_quad_eq hwf1 hwf2⟩

section ParserLemmas

lemma parse_netlist_some :
    ∀ lines : List String,
      (∀ line ∈ lines, isDeviceLine line = true → 4 ≤ (pySplit line).length) →
      parse_netlist lines = some (recordsOf lines) := by
  intro lines
  induction lines with
  | nil => intro _; rfl
  | cons line rest ih =>
    intro h
    have hrest : parse_netlist rest = some (recordsOf rest) :=
      ih (fun l hl => h l (List.mem_cons_of_mem _ hl))
    by_cases hd : isDeviceLine line
    · have h4 : 4 ≤ (pySplit line).length := h line (by simp) hd
      rcases hsp : pySplit line with _ | ⟨a, _ | ⟨b, _ | ⟨c, _ | ⟨d, tail⟩⟩⟩⟩
      · rw [hsp] at h4; simp at h4
      · rw [hsp] at h4; simp at h4
      · rw [hsp] at h4; simp at h4
      · rw [hsp] at h4; simp at h4
      · simp only [parse_netlist, hd, Bool.not_true, Bool.false_eq_true, if_false,
          hsp, hrest, Option.map_some, recordsOf, List.filterMap_cons, if_true]
        rfl
    · have hdf : isDeviceLine line = false := by
        revert hd; cases isDeviceLine line <;> simp
      simp only [parse_netlist, hdf, Bool.not_false, if_true, hrest,
        recordsOf, List.filterMap_cons, Bool.false_eq_true, if_false]

lemma hasEdge_edges_congr {G G' : Graph String} (h : G.edges = G'.edges)
    (u v : String) : hasEdge G u v = hasEdge G' u v := by
  rw [hasEdge, hasEdge, h]

lemma addEdge_edges (G : Graph String) (a b : String) :
    (addEdge G a b).edges = if hasEdge G a b then G.edges else G.edges ++ [(a, b)] := by
  simp only [addEdge]
  by_cases h1 : a ∈ G.nodes
  · simp only [if_pos h1]
    by_cases h2 : b ∈ G.nodes
    · simp only [if_pos h2]
      by_cases h3 : hasEdge G a b <;> simp [h3]
    · simp only [if_neg h2]
      rw [hasEdge_edges_congr
        (show ({ G with nodes := G.nodes ++ [b] } : Graph String).edges = G.edges from rfl)
        a b]
      by_cases h3 : hasEdge G a b <;> simp [h3]
  · simp only [if_neg h1]
    by_cases h2 : b ∈ ({ G with nodes := G.nodes ++ [a] } : Graph String).nodes
    · simp only [if_pos h2]
      rw [hasEdge_edges_congr
        (show ({ G with nodes := G.nodes ++ [a] } : Graph String).edges = G.edges from rfl)
        a b]
      by_cases h3 : hasEdge G a b <;> simp [h3]
    · simp only [if_neg h2]
      rw [hasEdge_edges_congr
        (show ({ ({ G with nodes := G.nodes ++ [a] } : Graph String) with
          nodes := ({ G with nodes := G.nodes ++ [a] } : Graph String).nodes ++ [b] } :
            Graph String).edges = G.edges from rfl) a b]
      by_cases h3 : hasEdge G a b <;> simp [h3]

lemma hasEdge_addEdge (G : Graph String) (a b u v : String) :
    hasEdge (addEdge G a b) u v = true ↔
      (hasEdge G u v = true ∨ (a = u ∧ b = v) ∨ (a = v ∧ b = u)) := by
  have hba : hasEdge (addEdge G a b) u v =
      (addEdge G a b).edges.any
        (fun e => decide ((e.1 = u ∧ e.2 = v) ∨ (e.1 = v ∧ e.2 = u))) := rfl
  rw [hba, addEdge_edges]
  by_cases h : hasEdge G a b
  · rw [if_pos h]
    constructor
    · intro h'
      exact Or.inl h'
    · rintro (h' | ⟨rfl, rfl⟩ | ⟨rfl, rfl⟩)
      · exact h'
      · exact h
      · show hasEdge G b a = true
        rw [hasEdge_symm]
        exact h
  · rw [if_neg h, List.any_append]
    rw [Bool.or_eq_true]
    constructor
    · rintro (h' | h')
      · exact Or.inl h'
      · simp only [List.any_cons, List.any_nil, Bool.or_false,
          decide_eq_true_iff] at h'
        exact Or.inr h'
    · rintro (h' | h')
      · exact Or.inl h'
      · refine Or.inr ?_
        simp only [List.any_cons, List.any_nil, Bool.or_false, decide_eq_true_iff]
        exact h'

lemma hasEdge_create_graph_aux :
    ∀ (ts : List Transistor) (G : Graph String) (u v : String),
      hasEdge (ts.foldl (fun G t =>
        addEdge (addEdge (addEdge G t.name t.drain) t.name t.gate) t.name t.source) G)
        u v = true
      ↔ (hasEdge G u v = true ∨ ∃ t ∈ ts,
          (t.name = u ∧ (t.drain = v ∨ t.gate = v ∨ t.source = v))
          ∨ (t.name = v ∧ (t.drain = u ∨ t.gate = u ∨ t.source = u))) := by
  intro ts
  induction ts with
  | nil =>
    intro G u v
    simp
  | cons t ts ih =>
    intro G u v
    rw [List.foldl_cons, ih, hasEdge_addEdge, hasEdge_addEdge, hasEdge_addEdge]
    simp only [List.mem_cons]
    constructor
    · rintro (h' | ⟨t', ht', hm⟩)
      · rcases h' with ((hG | ⟨h1, h2⟩ | ⟨h1, h2⟩) | ⟨h1, h2⟩ | ⟨h1, h2⟩) | ⟨h1, h2⟩ | ⟨h1, h2⟩
        · exact Or.inl hG
        · exact Or.inr ⟨t, Or.inl rfl, Or.inl ⟨h1, Or.inl h2⟩⟩
        · exact Or.inr ⟨t, Or.inl rfl, Or.inr ⟨h1, Or.inl h2⟩⟩
        · exact Or.inr ⟨t, Or.inl rfl, Or.inl ⟨h1, Or.inr (Or.inl h2)⟩⟩
        · exact Or.inr ⟨t, Or.inl rfl, Or.inr ⟨h1, Or.inr (Or.inl h2)⟩⟩
        · exact Or.inr ⟨t, Or.inl rfl, Or.inl ⟨h1, Or.inr (Or.inr h2)⟩⟩
        · exact Or.inr ⟨t, Or.inl rfl, Or.inr ⟨h1, Or.inr (Or.inr h2)⟩⟩
      · exact Or.inr ⟨t', Or.inr ht', hm⟩
    · rintro (hG | ⟨t', (rfl | ht'), hm⟩)
      · exact Or.inl (Or.inl (Or.inl (Or.inl hG)))
      · rcases hm with ⟨h1, h2 | h2 | h2⟩ | ⟨h1, h2 | h2 | h2⟩
        · exact Or.inl (Or.inl (Or.inl (Or.inr (Or.inl ⟨h1, h2⟩))))
        · exact Or.inl (Or.inl (Or.inr (Or.inl ⟨h1, h2⟩)))
        · exact Or.inl (Or.inr (Or.inl ⟨h1, h2⟩))
        · exact Or.inl (Or.inl (Or.inl (Or.inr (Or.inr ⟨h1, h2⟩))))
        · exact Or.inl (Or.inl (Or.inr (Or.inr ⟨h1, h2⟩)))
        · exact Or.inl (Or.inr (Or.inr ⟨h1, h2⟩))
      · exact Or.inr ⟨t', ht', hm⟩

end ParserLemmas

/-- C8 (amended): a line is treated as a device record exactly when it
contains `'nmos'` or `'pmos'` as a substring; when every such line has at
least four whitespace-separated fields, parsing succeeds and yields one
record per device line built from its first four fields (other lines are
ignored), and the graph built from the records has an edge between `u`
and `v` exactly when some record contributes it as one of
`(name, drain)`, `(name, gate)`, `(name, source)`.  A device line with
fewer than four fields makes the parser fail (see the counterexample);
the claim's "ignored without failure" does not hold for it. -/
theorem claim_C8 (lines : List String)
    (h : ∀ line ∈ lines, isDeviceLine line = true → 4 ≤ (pySplit line).length) :
    parse_netlist lines = some (recordsOf lines)
    ∧ ∀ u v, hasEdge (create_graph (recordsOf lines)) u v = true ↔
        ∃ t ∈ recordsOf lines,
          (t.name = u ∧ (t.drain = v ∨ t.gate = v ∨ t.source = v))
          ∨ (t.name = v ∧ (t.drain = u ∨ t.gate = u ∨ t.source = u)) := by
  refine ⟨parse_netlist_some lines h, ?_⟩
  intro u v
  rw [create_graph, hasEdge_create_graph_aux]
  constructor
  · rintro (hG | h')
    · exact absurd hG (by rw [hasEdge]; simp)
    · exact h'
  · intro h'
    exact Or.inr h'

/-- Witness for C8 on a concrete two-line netlist with one device line
and one ignored line. -/
theorem claim_C8_witness :
    (∀ line ∈ ["M1 d g s nmos", "junk"], isDeviceLine line = true →
      4 ≤ (pySplit line).length)
    ∧ (parse_netlist ["M1 d g s nmos", "junk"] =
        some (recordsOf ["M1 d g s nmos", "junk"])
      ∧ ∀ u v, hasEdge (create_graph (recordsOf ["M1 d g s nmos", "junk"])) u v = true ↔
          ∃ t ∈ recordsOf ["M1 d g s nmos", "junk"],
            (t.name = u ∧ (t.drain = v ∨ t.gate = v ∨ t.source = v))
            ∨ (t.name = v ∧ (t.drain = u ∨ t.gate = u ∨ t.source = u))) :=
  ⟨by decide, claim_C8 ["M1 d g s nmos", "junk"] (by decide)⟩

/-- Counterexample to C8 as stated: the line `"nmos"` is not a usable
device record (it has fewer than four fields, so under the spec's reading
it should be ignored and contribute nothing), yet the parser recognizes it
by its substring test and `Transistor(*values[:4])` fails — modelled as
`parse_netlist` returning `none` instead of skipping the line. -/
theorem claim_C8_cex :
    parse_netlist ["nmos"] = none
    ∧ isDeviceLine "nmos" = true
    ∧ recordsOf ["nmos"] = [] := by
  refine ⟨by decide, by decide, by decide⟩

/-- Witness for C9 at a concrete pair of two-node graphs. -/
theorem claim_C9_witness :
    (⟨[0, 1], [(0, 1)]⟩ : Graph ℕ).nodes.length = (⟨[0, 1], []⟩ : Graph ℕ).nodes.length
    ∧ (create_dqm (⟨[0, 1], [(0, 1)]⟩ : Graph ℕ) ⟨[0, 1], []⟩ =
        some (dqmBuild ⟨[0, 1], [(0, 1)]⟩ ⟨[0, 1], []⟩)
      ∧ (dqmBuild (⟨[0, 1], [(0, 1)]⟩ : Graph ℕ) ⟨[0, 1], []⟩).cases.map Prod.fst =
          (⟨[0, 1], [(0, 1)]⟩ : Graph ℕ).nodes
      ∧ (dqmBuild (⟨[0, 1], [(0, 1)]⟩ : Graph ℕ) ⟨[0, 1], []⟩).cases.length =
          (⟨[0, 1], [(0, 1)]⟩ : Graph ℕ).nodes.length
      ∧ ∀ p ∈ (dqmBuild (⟨[0, 1], [(0, 1)]⟩ : Graph ℕ) ⟨[0, 1], []⟩).cases,
          p.2 = (⟨[0, 1], []⟩ : Graph ℕ).nodes.length) :=
  ⟨rfl, claim_C9 ⟨[0, 1], [(0, 1)]⟩ ⟨[0, 1], []⟩ rfl⟩

/-- Witness for C10 at a concrete pair of well-formed two-node graphs. -/
theorem claim_C10_witness :
    (⟨[0, 1], [(0, 1)]⟩ : Graph ℕ).WF ∧ (⟨[0, 1], []⟩ : Graph ℕ).WF
    ∧ ((dqmBuild (⟨[0, 1], [(0, 1)]⟩ : Graph ℕ) ⟨[0, 1], []⟩).writes =
          uniqKeys (⟨[0, 1], [(0, 1)]⟩ : Graph ℕ)
              (⟨[0, 1], [(0, 1)]⟩ : Graph ℕ).nodes.length
            ++ b1Keys (⟨[0, 1], [(0, 1)]⟩ : Graph ℕ) ⟨[0, 1], []⟩
              (⟨[0, 1], [(0, 1)]⟩ : Graph ℕ).nodes.length
            ++ b2Keys (⟨[0, 1], [(0, 1)]⟩ : Graph ℕ) ⟨[0, 1], []⟩
      ∧ (∀ k ∈ uniqKeys (⟨[0, 1], [(0, 1)]⟩ : Graph ℕ)
            (⟨[0, 1], [(0, 1)]⟩ : Graph ℕ).nodes.length, k.1.2 = k.2.2)
      ∧ (∀ k ∈ b1Keys (⟨[0, 1], [(0, 1)]⟩ : Graph ℕ) ⟨[0, 1], []⟩
            (⟨[0, 1], [(0, 1)]⟩ : Graph ℕ).nodes.length,
          hasEdge (⟨[0, 1], [(0, 1)]⟩ : Graph ℕ) k.1.1 k.2.1 = true ∧ k.1.2 ≠ k.2.2)
      ∧ (∀ k ∈ b2Keys (⟨[0, 1], [(0, 1)]⟩ : Graph ℕ) ⟨[0, 1], []⟩,
          hasEdge (⟨[0, 1], [(0, 1)]⟩ : Graph ℕ) k.1.1 k.2.1 = false ∧ k.1.2 ≠ k.2.2)
      ∧ (dqmBuild (⟨[0, 1], [(0, 1)]⟩ : Graph ℕ) ⟨[0, 1], []⟩).writes.Pairwise
          (fun k k' => ¬ sameQKey k k')
      ∧ 2 * A_equivalence = B_equivalence
      ∧ (∀ p q, (dqmBuild (⟨[0, 1], [(0, 1)]⟩ : Graph ℕ) ⟨[0, 1], []⟩).quadratic p q = 0
          ∨ (dqmBuild (⟨[0, 1], [(0, 1)]⟩ : Graph ℕ) ⟨[0, 1], []⟩).quadratic p q
              = B_equivalence)
      ∧ (∀ p q,
          (dqmBuildAdditive (⟨[0, 1], [(0, 1)]⟩ : Graph ℕ) ⟨[0, 1], []⟩).quadratic p q
            = (dqmBuild (⟨[0, 1], [(0, 1)]⟩ : Graph ℕ) ⟨[0, 1], []⟩).quadratic p q)) :=
  ⟨by decide, by decide,
    claim_C10 ⟨[0, 1], [(0, 1)]⟩ ⟨[0, 1], []⟩ (by decide) (by decide)⟩

end CircuitEquivalence
